import Mathlib

/-!
NPC.cpp: mission NPCs, their success/failure evaluator, their instantiation and
their save format.

A shallow embedding of `src/NPC.cpp`.

* A `std::map<K, V>` is a key-sorted association list (`StdMap`); `find` and
  `set` are total on every list and behave as the C++ container on sorted,
  duplicate-free lists (`StdMap.Valid`).
* A `shared_ptr<Ship>` is a `Ship`: the address `ptr` and the pointee `obj`.
  Two handles denote the same actor exactly when their addresses are equal.
* The `int` bitmasks `succeedIf`, `failIf` and the values of `actions` are the
  bit patterns of the C++ `int`, as natural numbers; `|` and `&` act bitwise.
* Classes whose sources are not part of `src/` (`GameData`, `DataNode::Value`,
  `Ship`, `Fleet`, `LocationFilter`, `Conversation`, `Format`) enter through
  the structure `World` or through small models documented where they stand;
  what `NPC::Save` uses of `DataWriter`, `Ship::Save` and `Conversation::Save`
  enters through the structure `Output`, and `NPC::Save` returns the node it
  writes.
* The `double` values of a placement are carried as exact rationals, which
  record the draws and factors that enter them; no theorem rests on their
  arithmetic.
-/

namespace NPCModel

/-! ## std::map -/

/-- The association list behind a `std::map<K, V>`. -/
abbrev StdMap (K : Type) (V : Type) := List (K × V)

namespace StdMap

/-- The `std::map::find` lookup: the value stored under `key`, if any. -/
def find {K V : Type} [DecidableEq K] : StdMap K V → K → Option V
  | [], _ => none
  | (k, v) :: rest, key => if k = key then some v else find rest key

/-- The assignment `m[key] = val`: overwrite the entry of `key`, or insert a new
entry at its place in key order. -/
def set {K V : Type} [DecidableEq K] [LT K] [DecidableRel (fun a b : K => a < b)] :
    StdMap K V → K → V → StdMap K V
  | [], key, val => [(key, val)]
  | (k, v) :: rest, key, val =>
      if k = key then (k, val) :: rest
      else if key < k then (key, val) :: (k, v) :: rest
      else (k, v) :: set rest key val

/-- The keys of the map in iteration order. -/
def keys {K V : Type} (m : StdMap K V) : List K := m.map Prod.fst

/-- The class invariant of `std::map`: keys strictly increasing, hence unique. -/
def Valid {K V : Type} [LT K] (m : StdMap K V) : Prop :=
  List.Pairwise (fun a b => a < b) (keys m)

end StdMap

/-! ## Collaborating types -/

/-- A `Government` as far as `NPC.cpp` sees it: `GetName()`. -/
structure Government where
  name : String
  deriving DecidableEq, Repr

/-- A `System` entry of `GameData::Systems()`: the key it is registered under
(its identity) and its `Name()`, empty while the entry has incomplete data. -/
structure System where
  key : String
  name : String
  deriving DecidableEq, Repr

/-- A two-dimensional `Point`. -/
structure Point where
  x : ℚ
  y : ℚ
  deriving DecidableEq

/-- Scale a point by a number: `Point * double`. -/
def Point.scale (p : Point) (c : ℚ) : Point := ⟨p.x * c, p.y * c⟩

/-- An `Angle`, held as the unit vector `Unit()` returns. -/
structure Angle where
  unit : Point
  deriving DecidableEq

/-- The pointee of a `shared_ptr<Ship>`: the attributes `NPC.cpp` reads or writes. -/
structure ShipObj where
  name : String := ""
  government : Option Government := none
  isSpecial : Bool := false
  system : Option System := none
  maxVelocity : ℚ := 0
  position : Point := ⟨0, 0⟩
  velocity : Point := ⟨0, 0⟩
  angle : Angle := ⟨⟨0, 0⟩⟩
  deriving DecidableEq

/-- The setter `Ship::SetName`. -/
def ShipObj.SetName (s : ShipObj) (n : String) : ShipObj := { s with name := n }

/-- The setter `Ship::SetGovernment`. -/
def ShipObj.SetGovernment (s : ShipObj) (g : Option Government) : ShipObj :=
  { s with government := g }

/-- The setter `Ship::SetIsSpecial` (default argument `true`). -/
def ShipObj.SetIsSpecial (s : ShipObj) : ShipObj := { s with isSpecial := true }

/-- The setter `Ship::SetSystem`. -/
def ShipObj.SetSystem (s : ShipObj) (sys : Option System) : ShipObj := { s with system := sys }

/-- The call `Ship::Place(position, velocity, angle)`. -/
def ShipObj.Place (s : ShipObj) (pos vel : Point) (a : Angle) : ShipObj :=
  { s with position := pos, velocity := vel, angle := a }

/-- A `shared_ptr<Ship>`: the address of the ship and the ship itself. -/
structure Ship where
  ptr : Nat
  obj : ShipObj
  deriving DecidableEq

/-- Apply a member function to the pointee; the address stays. -/
def Ship.update (s : Ship) (f : ShipObj → ShipObj) : Ship := { s with obj := f s.obj }

/-- Allocate the given objects at consecutive fresh addresses from `heap` on
(`make_shared<Ship>` once per object). -/
def allocShips : Nat → List ShipObj → List Ship
  | _, [] => []
  | heap, o :: rest => ⟨heap, o⟩ :: allocShips (heap + 1) rest

/-- A `LocationFilter`, through the two member functions `NPC.cpp` calls. -/
structure LocationFilter where
  isEmpty : Bool := true
  accepts : System → Option System → Bool := fun _ _ => false

/-- The query `LocationFilter::IsEmpty`. -/
def LocationFilter.IsEmpty (l : LocationFilter) : Bool := l.isEmpty

/-- The query `LocationFilter::Matches(system, origin)`. -/
def LocationFilter.Matches (l : LocationFilter) (s : System) (origin : Option System) : Bool :=
  l.accepts s origin

/-- Modelled from the spec: `Conversation` (its source is not part of `src/`), a
branching dialog structure held as the texts of its nodes; it is empty when it
has no node. -/
structure Conversation where
  nodes : List String := []
  deriving DecidableEq, Repr

/-- The query `Conversation::IsEmpty`. -/
def Conversation.IsEmpty (c : Conversation) : Bool := c.nodes.isEmpty

/-- Modelled from the spec: `Fleet` (its source is not part of `src/`), the
fleet-placement service as a black box that yields ships given a system. -/
structure Fleet where
  spawn : Option System → List ShipObj := fun _ => []

/-- Modelled from the spec: `Fleet::Place(system, ships)` appends the new actors
to the actor collection in place; they are allocated from `heap` on. -/
def Fleet.Place (f : Fleet) (sys : Option System) (heap : Nat) (ships : List Ship) : List Ship :=
  ships ++ allocShips heap (f.spawn sys)

/-- A `ShipEvent` as `NPC::Do` reads it: `Target()` (an address) and `Type()`. -/
structure ShipEvent where
  target : Nat
  type : Nat
  deriving DecidableEq, Repr

/-- The event kinds of `ShipEvent` that `NPC::Load` names. Their numeric values are
declared in `ShipEvent.h`, which is not part of `src/`, so they are parameters. -/
structure EventKinds where
  DESTROY : Nat
  BOARD : Nat
  DISABLE : Nat
  SCAN_CARGO : Nat
  SCAN_OUTFITS : Nat

/-- A `DataNode` of the data file format: the tokens of a line and the nodes
of the lines indented under it. -/
inductive DataNode where
  | mk (tokens : List String) (children : List DataNode)

namespace DataNode

/-- The tokens of the node. -/
def tokens : DataNode → List String
  | mk t _ => t

/-- The child nodes, which the range-for over a node visits in order. -/
def children : DataNode → List DataNode
  | mk _ c => c

/-- The count `DataNode::Size`: the number of tokens. -/
def Size (n : DataNode) : Nat := n.tokens.length

/-- The accessor `DataNode::Token(i)`; the empty string stands for an index out of range. -/
def Token (n : DataNode) (i : Nat) : String := n.tokens.getD i ""

/-- The query `DataNode::HasChildren`. -/
def HasChildren (n : DataNode) : Bool := !n.children.isEmpty

end DataNode

namespace DataNode

/-- A childless "ship" line that names a model, `ship <model>` or
`ship <model> <name>`: a reference to a stock ship. -/
def isStockShip (n : DataNode) : Bool :=
  decide (n.Token 0 = "ship") && !n.HasChildren && decide (n.Size ≥ 2)

/-- A "ship" line with lines under it: an inline blueprint. -/
def isInlineShip (n : DataNode) : Bool :=
  decide (n.Token 0 = "ship") && n.HasChildren

/-- The display name of a stock ship line: the name when one is supplied, the
model when none is. -/
def stockName (n : DataNode) : String :=
  if n.Size > 2 then n.Token 2 else n.Token 1

end DataNode

/-- The substitution table `map<string, string>`. -/
abbrev Subs := StdMap String String

/-- The random values one placement of `NPC::Instantiate` draws, in the order
of the draws: the heading, the angle and the radius fraction of the position,
the speed fraction. -/
structure Draw where
  angle : Angle
  posAngle : Angle
  posReal : ℚ
  velReal : ℚ

/-- The random source `Random`, as the values it is going to return: the raw
value behind `Random::Int` and the draws of the i-th placement. -/
structure Random where
  raw : Nat
  draws : Nat → Draw

/-- The call `Random::Int(n)`: an integer below `n`. -/
def Random.Int (r : Random) (n : Nat) : Nat := r.raw % n

/-- What `NPC.cpp` uses of the program around it and whose source is not part of
`src/`: the registries of `GameData`, the number parser of `DataNode`, the
loaders of the collaborating classes and the text substitution. -/
structure World where
  kinds : EventKinds
  PlayerGovernment : Option Government
  Systems : List System
  Governments : String → Government
  Conversations : String → Conversation
  Ships : String → ShipObj
  Fleets : String → Fleet
  Value : String → Nat
  LoadLocation : LocationFilter → DataNode → LocationFilter
  LoadConversation : Conversation → DataNode → Conversation
  LoadShip : DataNode → ShipObj
  LoadFleet : DataNode → Fleet
  FinishLoading : ShipObj → ShipObj
  Replace : String → Subs → String
  Substitute : Conversation → Subs → Conversation

/-- The lookup `GameData::Systems().Get(key)`: the entry registered under `key`,
a new entry with incomplete data when there was none. -/
def World.SystemsGet (w : World) (key : String) : System :=
  (w.Systems.find? (fun s => s.key = key)).getD ⟨key, ""⟩

/-! ## The NPC record -/

/-- The data members of `NPC` that `NPC.cpp` uses, with the values a default
constructed `NPC` has. -/
structure NPC where
  government : Option Government := none
  succeedIf : Nat := 0
  failIf : Nat := 0
  system : Option System := none
  location : LocationFilter := {}
  dialogText : String := ""
  conversation : Conversation := {}
  stockConversation : Option Conversation := none
  ships : List Ship := []
  stockShips : List ShipObj := []
  shipNames : List String := []
  fleets : List Fleet := []
  stockFleets : List Fleet := []
  actions : StdMap Nat Nat := []

namespace NPC

/-- The accessor `NPC::Ships`. -/
def Ships (self : NPC) : List Ship := self.ships

/-- The accumulated mask of the actor at address `a`: the value `actions` holds
for it, and 0 when it has no entry. -/
def maskOf (self : NPC) (a : Nat) : Nat := (StdMap.find self.actions a).getD 0

/-- The query `NPC::HasFailed`: some entry of `actions` intersects `failIf`. -/
def HasFailed (self : NPC) : Bool :=
  self.actions.any (fun it => it.2 &&& self.failIf != 0)

/-- The query `NPC::HasSucceeded`. -/
def HasSucceeded (self : NPC) : Bool :=
  if self.HasFailed then false
  else if self.succeedIf = 0 then true
  else self.ships.all (fun ship =>
    match StdMap.find self.actions ship.ptr with
    | none => false
    | some v => !(v &&& self.succeedIf != self.succeedIf))

/-- What `NPC::Do` may show to the player. -/
inductive Notice where
  | message (text : String)
  | conversationPanel (c : Conversation)
  | dialog (text : String)
  deriving DecidableEq, Repr

/-- The first loop of `NPC::Do`: the first ship that is the event's target gets
the event type OR-ed into its entry of `actions` (`operator[]` starts a missing
entry at 0), and the loop ends. -/
def record : List Ship → StdMap Nat Nat → ShipEvent → StdMap Nat Nat
  | [], actions, _ => actions
  | ship :: rest, actions, event =>
      if ship.ptr = event.target then
        StdMap.set actions ship.ptr ((StdMap.find actions ship.ptr).getD 0 ||| event.type)
      else record rest actions event

/-- The member function `NPC::Do(event, player, ui)`: the record after the event
and the notices emitted. `ui` tells whether the `UI *` is non-null; `player` is
only handed on to the conversation panel and is left out. -/
def Do (self : NPC) (event : ShipEvent) (ui : Bool) : NPC × List Notice :=
  let hasSucceeded := self.HasSucceeded
  let hasFailed := self.HasFailed
  let next : NPC := { self with actions := record self.ships self.actions event }
  if next.HasFailed && !hasFailed then
    (next, [Notice.message "Mission failed."])
  else if ui && next.HasSucceeded && !hasSucceeded then
    if !next.conversation.IsEmpty then (next, [Notice.conversationPanel next.conversation])
    else if !next.dialogText.isEmpty then (next, [Notice.dialog next.dialogText])
    else (next, [])
  else (next, [])

/-- Feed a sequence of calls `Do(event, player, ui)` to the record, one after the
other: the record after the last call. -/
def run (self : NPC) : List (ShipEvent × Bool) → NPC
  | [] => self
  | (event, ui) :: rest => run (self.Do event ui).1 rest

/-- The notices each call of such a sequence emits, call by call. -/
def notices (self : NPC) : List (ShipEvent × Bool) → List (List Notice)
  | [] => []
  | (event, ui) :: rest => (self.Do event ui).2 :: notices (self.Do event ui).1 rest

/-- The notice `Messages::Add("Mission failed.")`. -/
def failNotice : Notice := Notice.message "Mission failed."

/-- Whether a notice is something pushed onto the UI (a conversation panel or a dialog). -/
def Notice.isPush : Notice → Bool
  | Notice.message _ => false
  | Notice.conversationPanel _ => true
  | Notice.dialog _ => true

/-! ### Load -/

/-- One round of the first loop of `NPC::Load`, for the token `tok` after the tag. -/
def LoadToken (k : EventKinds) (self : NPC) (tok : String) : NPC :=
  let self := if tok = "save" then { self with failIf := self.failIf ||| k.DESTROY } else self
  let self := if tok = "kill" then { self with succeedIf := self.succeedIf ||| k.DESTROY } else self
  let self := if tok = "board" then { self with succeedIf := self.succeedIf ||| k.BOARD } else self
  let self := if tok = "disable" then { self with succeedIf := self.succeedIf ||| k.DISABLE } else self
  let self :=
    if tok = "scan cargo" then { self with succeedIf := self.succeedIf ||| k.SCAN_CARGO } else self
  if tok = "scan outfits" then { self with succeedIf := self.succeedIf ||| k.SCAN_OUTFITS } else self

/-- One round of the dialog loops of `NPC::Load`: a paragraph break when there
is text already, then the token. -/
def appendParagraph (dialogText tok : String) : String :=
  (if !dialogText.isEmpty then dialogText ++ "\n\t" else dialogText) ++ tok

/-- The loop of `NPC::Load` over the lines under an inline ship: an "actions"
line with a value sets the entry of the ship just loaded. -/
def LoadActions (w : World) (ptr : Nat) (actions : StdMap Nat Nat) (grand : DataNode) :
    StdMap Nat Nat :=
  if grand.Token 0 = "actions" ∧ grand.Size ≥ 2 then
    StdMap.set actions ptr (w.Value (grand.Token 1))
  else actions

/-- One round of the loop of `NPC::Load` over the children of the node. The
state is the record and the next free address. -/
def LoadChild (w : World) (st : NPC × Nat) (child : DataNode) : NPC × Nat :=
  let self := st.1
  let heap := st.2
  let doEnter := decide (child.Token 0 = "enter")
  let doRemain := decide (child.Token 0 = "remain")
  let doWait := decide (child.Token 0 = "wait")
  if doEnter || doRemain || doWait then
    if child.Size ≥ 2 then ({ self with system := some (w.SystemsGet (child.Token 1)) }, heap)
    else ({ self with location := w.LoadLocation self.location child }, heap)
  else if child.Token 0 = "succeed" ∧ child.Size ≥ 2 then
    ({ self with succeedIf := w.Value (child.Token 1) }, heap)
  else if child.Token 0 = "fail" ∧ child.Size ≥ 2 then
    ({ self with failIf := w.Value (child.Token 1) }, heap)
  else if child.Token 0 = "government" ∧ child.Size ≥ 2 then
    ({ self with government := some (w.Governments (child.Token 1)) }, heap)
  else if child.Token 0 = "dialog" then
    let text := (child.tokens.drop 1).foldl appendParagraph self.dialogText
    let text := child.children.foldl (fun t grand => grand.tokens.foldl appendParagraph t) text
    ({ self with dialogText := text }, heap)
  else if child.Token 0 = "conversation" ∧ child.HasChildren then
    ({ self with conversation := w.LoadConversation self.conversation child }, heap)
  else if child.Token 0 = "conversation" ∧ child.Size > 1 then
    ({ self with stockConversation := some (w.Conversations (child.Token 1)) }, heap)
  else if child.Token 0 = "ship" then
    if child.HasChildren then
      ({ self with
          ships := self.ships ++ [⟨heap, w.LoadShip child⟩]
          actions := child.children.foldl (LoadActions w heap) self.actions }, heap + 1)
    else if child.Size ≥ 2 then
      ({ self with
          stockShips := self.stockShips ++ [w.Ships (child.Token 1)]
          shipNames := self.shipNames ++ [child.Token (1 + (if child.Size > 2 then 1 else 0))] },
        heap)
    else (self, heap)
  else if child.Token 0 = "fleet" then
    if child.HasChildren then ({ self with fleets := self.fleets ++ [w.LoadFleet child] }, heap)
    else if child.Size ≥ 2 then
      ({ self with stockFleets := self.stockFleets ++ [w.Fleets (child.Token 1)] }, heap)
    else (self, heap)
  else (self, heap)

/-- The member function `NPC::Load(node)`, run on the record `self`; the ships
it creates are allocated from `heap` on. -/
def Load (w : World) (self : NPC) (node : DataNode) (heap : Nat) : NPC :=
  let self := (node.tokens.drop 1).foldl (LoadToken w.kinds) self
  let self := (node.children.foldl (LoadChild w) (self, heap)).1
  { self with
    ships := self.ships.map (fun ship => ship.update (fun o =>
      w.FinishLoading ((o.SetGovernment self.government).SetIsSpecial))) }

/-! ### Instantiate -/

/-- The placement loop of `NPC::Instantiate`: the i-th ship is put in the system
at the position `Unit() * Real() * 400` of its draws, with the heading drawn and
the velocity `Real() * MaxVelocity()` along the heading. -/
def placeShips (rnd : Random) (system : Option System) : Nat → List Ship → List Ship
  | _, [] => []
  | i, ship :: rest =>
      let angle := (rnd.draws i).angle
      let pos := ((rnd.draws i).posAngle.unit.scale (rnd.draws i).posReal).scale 400
      let velocity := (rnd.draws i).velReal * ship.obj.maxVelocity
      ship.update (fun o => (o.SetSystem system).Place pos (angle.unit.scale velocity) angle)
        :: placeShips rnd system (i + 1) rest

/-- The two fleet loops of `NPC::Instantiate`: each fleet places its ships into
the actor collection. All ships of the collection were allocated by this call,
so the next free address is `heap` plus their number. -/
def placeFleets (system : Option System) (heap : Nat) (fleets : List Fleet) (ships : List Ship) :
    List Ship :=
  fleets.foldl (fun acc fleet => fleet.Place system (heap + acc.length) acc) ships

/-- The system `NPC::Instantiate` picks for the record. -/
def pickSystem (w : World) (self : NPC) (origin : Option System) (rnd : Random) : Option System :=
  let system := self.system
  let system :=
    if system.isNone ∧ !self.location.IsEmpty then
      let options := w.Systems.filter (fun it => !it.name.isEmpty && self.location.Matches it origin)
      if !options.isEmpty then options.get? (rnd.Int options.length) else system
    else system
  if system.isNone then origin else system

/-- The member function `NPC::Instantiate(subs, origin)` on the template `self`:
the new record and the substitution table after the call. The ships of the
record are allocated from `heap` on. -/
def Instantiate (w : World) (self : NPC) (subs : Subs) (origin : Option System)
    (rnd : Random) (heap : Nat) : NPC × Subs :=
  let government := if self.government.isNone then w.PlayerGovernment else self.government
  let system := pickSystem w self origin rnd
  let inline := allocShips heap (self.ships.map (fun ship => w.FinishLoading ship.obj))
  let stock := allocShips (heap + inline.length)
    (List.zipWith (fun ship name => ship.SetName name) self.stockShips self.shipNames)
  let ships := placeShips rnd system 0 (inline ++ stock)
  let ships := placeFleets system heap self.fleets ships
  let ships := placeFleets system heap self.stockFleets ships
  let ships := ships.map (fun ship => ship.update (fun o =>
    (o.SetGovernment self.government).SetIsSpecial))
  let subs :=
    match self.ships with
    | [] => subs
    | front :: _ => StdMap.set subs "<npc>" front.obj.name
  let dialogText := if !self.dialogText.isEmpty then w.Replace self.dialogText subs else ""
  let conversation :=
    match self.stockConversation with
    | some stock => w.Substitute stock subs
    | none =>
        if !self.conversation.IsEmpty then w.Substitute self.conversation subs else {}
  ({ government := government
     succeedIf := self.succeedIf
     failIf := self.failIf
     system := system
     ships := ships
     dialogText := dialogText
     conversation := conversation }, subs)

end NPC

/-! ## Save -/

/-- What `NPC::Save` uses of classes whose source is not part of `src/`: the token
`DataWriter::Write` produces for an `int` (given as its bit pattern), and the node
`Ship::Save` and `Conversation::Save` write. -/
structure Output where
  Number : Nat → String
  ShipSave : ShipObj → DataNode
  ConversationSave : Conversation → DataNode

/-- The search `text.find("\n\t", begin)` on what is left of the text from `begin`
on: the offset of the first paragraph break, if there is one. -/
def findBreak : List Char → Option Nat
  | [] => none
  | c :: rest =>
      if c = '\n' ∧ rest.head? = some '\t' then some 0
      else (findBreak rest).map (fun pos => pos + 1)

/-- The paragraph loop of `NPC::Save` on what is left of the text from `begin` on:
write the text up to the next paragraph break, stop when there was none, go on
behind the break otherwise. Each round consumes a break, so `fuel` rounds are
enough once `fuel` exceeds the length of the text. -/
def saveParagraphs : Nat → List Char → List (List Char)
  | 0, _ => []
  | fuel + 1, rest =>
      match findBreak rest with
      | none => [rest]
      | some pos => rest.take pos :: saveParagraphs fuel (rest.drop (pos + 2))

/-- The text a list of paragraphs stands for: the paragraphs with a paragraph
break between neighbours. -/
def joinParagraphs : List (List Char) → List Char
  | [] => []
  | [paragraph] => paragraph
  | paragraph :: rest => paragraph ++ '\n' :: '\t' :: joinParagraphs rest

namespace NPC

/-- The paragraphs `NPC::Save` writes under the "dialog" line, one token each. -/
def SaveParagraphs (self : NPC) : List String :=
  (saveParagraphs (self.dialogText.length + 1) self.dialogText.data).map String.mk

/-- The "dialog" node `NPC::Save` writes for a record with dialog text. -/
def SaveDialog (self : NPC) : DataNode :=
  DataNode.mk ["dialog"] (self.SaveParagraphs.map (fun paragraph => DataNode.mk [paragraph] []))

/-- The "succeed" and "fail" lines `NPC::Save` writes: a line for each mask that
is not zero. -/
def SaveConditions (out : Output) (self : NPC) : List DataNode :=
  (if self.succeedIf ≠ 0 then [DataNode.mk ["succeed", out.Number self.succeedIf] []] else []) ++
  (if self.failIf ≠ 0 then [DataNode.mk ["fail", out.Number self.failIf] []] else [])

/-- The node `NPC::Save` writes for one ship: what `Ship::Save` writes, and an
"actions" line appended to the end of the ship data when the ship has an entry
in `actions` that is not zero. -/
def SaveShip (out : Output) (self : NPC) (ship : Ship) : DataNode :=
  match StdMap.find self.actions ship.ptr with
  | none => out.ShipSave ship.obj
  | some v =>
      if v ≠ 0 then
        DataNode.mk (out.ShipSave ship.obj).tokens
          ((out.ShipSave ship.obj).children ++ [DataNode.mk ["actions", out.Number v] []])
      else out.ShipSave ship.obj

/-- The member function `NPC::Save(out)`: the node it writes. -/
def Save (out : Output) (self : NPC) : DataNode :=
  DataNode.mk ["npc"]
    (self.SaveConditions out ++
      (match self.government with
        | some government => [DataNode.mk ["government", government.name] []]
        | none => []) ++
      (if !self.dialogText.isEmpty then [self.SaveDialog] else []) ++
      (if !self.conversation.IsEmpty then [out.ConversationSave self.conversation] else []) ++
      self.ships.map (self.SaveShip out))

end NPC

/-- The writer fits the loaders: `DataNode::Value` reads back the integer
`DataWriter::Write` wrote, `Ship::Save` writes a "ship" line with lines under it,
none of them an "actions" line, and `Conversation::Save` writes a "conversation"
line. -/
def Output.ReadsBack (out : Output) (w : World) : Prop :=
  (∀ n, w.Value (out.Number n) = n) ∧
    (∀ o, (out.ShipSave o).Token 0 = "ship" ∧ (out.ShipSave o).HasChildren = true ∧
      ∀ grand ∈ (out.ShipSave o).children, grand.Token 0 ≠ "actions") ∧
    (∀ c, (out.ConversationSave c).Token 0 = "conversation")

/-! ## Predicates used in the statements -/

namespace NPC

/-- The progress map is a valid `std::map` and each of its keys is the address
of one of the record's ships. -/
def WellFormed (self : NPC) : Prop :=
  StdMap.Valid self.actions ∧ ∀ k ∈ StdMap.keys self.actions, k ∈ self.ships.map Ship.ptr

/-- Some concrete actor of the record has an accumulated mask that intersects `failIf`. -/
def SomeActorFailed (self : NPC) : Prop :=
  ∃ ship ∈ self.ships, self.maskOf ship.ptr &&& self.failIf ≠ 0

/-- Every concrete actor of the record has an accumulated mask that is a superset of `succeedIf`. -/
def AllActorsDone (self : NPC) : Prop :=
  ∀ ship ∈ self.ships, self.maskOf ship.ptr &&& self.succeedIf = self.succeedIf

/-- The bit a shorthand token of the "npc" line stands for: `bit` when the token
`name` occurs among `toks`, and 0 when it does not. -/
def shorthand (toks : List String) (name : String) (bit : Nat) : Nat :=
  if name ∈ toks then bit else 0

/-- Every key of the progress map is the address of one of the record's ships. -/
def KeysTracked (self : NPC) : Prop :=
  ∀ k ∈ StdMap.keys self.actions, k ∈ self.ships.map Ship.ptr

end NPC

/-! ## Sample data -/

/-- Sample values for the event kinds: distinct single bits. -/
def sampleKinds : EventKinds :=
  { DESTROY := 128, BOARD := 32, DISABLE := 16, SCAN_CARGO := 2, SCAN_OUTFITS := 4 }

/-- A sample player government. -/
def escort : Government := ⟨"Escort"⟩

/-- A sample world: one complete system, registries that answer every name,
identity text substitution. -/
def sampleWorld : World :=
  { kinds := sampleKinds
    PlayerGovernment := some escort
    Systems := [⟨"Sol", "Sol"⟩]
    Governments := fun name => ⟨name⟩
    Conversations := fun name => ⟨[name]⟩
    Ships := fun name => { name := name }
    Fleets := fun _ => {}
    Value := fun tok => tok.toNat?.getD 0
    LoadLocation := fun l _ => l
    LoadConversation := fun c _ => c
    LoadShip := fun node => { name := node.Token 1 }
    LoadFleet := fun _ => {}
    FinishLoading := fun o => o
    Replace := fun text _ => text
    Substitute := fun c _ => c }

/-- A sample random source. -/
def sampleRandom : Random :=
  { raw := 0, draws := fun _ => ⟨⟨⟨1, 0⟩⟩, ⟨⟨0, 1⟩⟩, 1 / 2, 1 / 2⟩ }

/-- A sample record: two actors at the addresses 1 and 2, fail on DESTROY,
succeed on DISABLE, the second actor already disabled. -/
def sampleRecord : NPC :=
  { succeedIf := 16
    failIf := 128
    dialogText := "Well done."
    ships := [⟨1, { name := "A" }⟩, ⟨2, { name := "B" }⟩]
    actions := [(2, 16)] }

/-- A sample template: one inline actor, no government, succeed on BOARD. -/
def sampleTemplate : NPC :=
  { succeedIf := 32
    ships := [⟨7, { name := "A" }⟩] }

/-- A sample template without any actor: fail on DESTROY, succeed on DISABLE. -/
def emptyTemplate : NPC :=
  { succeedIf := 16, failIf := 128 }

/-- A sample node without ship lines: the line "npc kill save". -/
def emptyNode : DataNode := DataNode.mk ["npc", "kill", "save"] []

/-- A sample template with one stock ship line "ship Sparrow Alice" and no
inline ship. -/
def stockTemplate : NPC :=
  { succeedIf := 32
    stockShips := [{ name := "Sparrow" }]
    shipNames := ["Alice"] }

/-- A sample world with four registered systems, one of them with incomplete data. -/
def sampleGalaxy : World :=
  { sampleWorld with
    Systems := [⟨"Sol", "Sol"⟩, ⟨"Unfinished", ""⟩, ⟨"Vega", "Vega"⟩, ⟨"Altair", "Altair"⟩] }

/-- A sample template with a location filter: every system but Sol. -/
def filterTemplate : NPC :=
  { location := { isEmpty := false, accepts := fun system _ => system.name != "Sol" } }

/-- A sample template with a location filter that no system matches. -/
def nowhereTemplate : NPC :=
  { location := { isEmpty := false, accepts := fun _ _ => false } }

/-- A sample node: the line "npc kill escort save kill 'scan cargo'" with a stock
ship line and a government line under it. -/
def shorthandNode : DataNode :=
  DataNode.mk ["npc", "kill", "escort", "save", "kill", "scan cargo"]
    [DataNode.mk ["ship", "Sparrow", "Alice"] [], DataNode.mk ["government", "Pirate"] []]

/-- A sample node with a named stock ship line, an inline ship and a stock ship
line without a name. -/
def fleetNode : DataNode :=
  DataNode.mk ["npc", "kill"]
    [DataNode.mk ["ship", "Sparrow", "Alice"] [],
      DataNode.mk ["ship", "Hawk"] [DataNode.mk ["sprite", "hawk"] []],
      DataNode.mk ["ship", "Wasp"] []]

/-- A sample text substitution: a leading "<npc>" is replaced by its entry of the
substitution table. -/
def replaceLeadingNpc (text : String) (subs : Subs) : String :=
  match text.data with
  | '<' :: 'n' :: 'p' :: 'c' :: '>' :: rest =>
      String.mk (((StdMap.find subs "<npc>").getD "<npc>").data ++ rest)
  | _ => text

/-- A sample world with that text substitution. -/
def npcWorld : World := { sampleWorld with Replace := replaceLeadingNpc }

/-- A sample template: one inline ship without a name, and a dialog of the two
paragraphs "<npc>" and "Hello". -/
def namelessTemplate : NPC :=
  { dialogText := "<npc>\n\tHello"
    ships := [⟨7, {}⟩] }

/-- A sample token for an integer: its decimal digits. -/
def writeDecimal (n : Nat) : String :=
  if n = 0 then "0" else String.mk ((Nat.digits 10 n).reverse.map Nat.digitChar)

/-- The number a sample token of decimal digits stands for. -/
def readDecimal (tok : String) : Nat :=
  Nat.ofDigits 10 (tok.data.reverse.map (fun c => c.toNat - 48))

/-- A sample world that reads numbers as decimal digits. -/
def decimalWorld : World := { sampleWorld with Value := readDecimal }

/-- A sample writer: numbers as decimal digits, a ship as the line "ship" with
its name under it, a conversation as the line "conversation" with its texts. -/
def decimalOutput : Output :=
  { Number := writeDecimal
    ShipSave := fun o => DataNode.mk ["ship"] [DataNode.mk ["name", o.name] []]
    ConversationSave := fun c => DataNode.mk ["conversation"] (c.nodes.map (fun t => DataNode.mk [t] [])) }

/-! ## Lemmas on std::map -/

namespace StdMap

theorem find_set_self (m : StdMap Nat Nat) (k v : Nat) : find (set m k v) k = some v := by
  induction m with
  | nil => simp [set, find]
  | cons e rest ih =>
    obtain ⟨k0, v0⟩ := e
    by_cases h1 : k0 = k
    · simp [set, find, h1]
    · by_cases h2 : k < k0
      · simp [set, find, h1, h2]
      · simp [set, find, h1, h2, ih]

theorem find_set_ne (m : StdMap Nat Nat) (k v b : Nat) (hb : b ≠ k) :
    find (set m k v) b = find m b := by
  induction m with
  | nil => simp [set, find, Ne.symm hb]
  | cons e rest ih =>
    obtain ⟨k0, v0⟩ := e
    by_cases h1 : k0 = k
    · subst h1
      simp [set, find, Ne.symm hb]
    · by_cases h2 : k < k0
      · simp [set, find, h1, h2, Ne.symm hb]
      · simp [set, find, h1, h2, ih]

theorem set_set (m : StdMap Nat Nat) (k v v2 : Nat) : set (set m k v) k v2 = set m k v2 := by
  induction m with
  | nil => simp [set]
  | cons e rest ih =>
    obtain ⟨k0, v0⟩ := e
    by_cases h1 : k0 = k
    · simp [set, h1]
    · by_cases h2 : k < k0
      · simp [set, h1, h2]
      · simp [set, h1, h2, ih]

theorem mem_keys_set (m : StdMap Nat Nat) (k v a : Nat) :
    a ∈ keys (set m k v) ↔ a = k ∨ a ∈ keys m := by
  induction m with
  | nil => simp [set, keys]
  | cons e rest ih =>
    obtain ⟨k0, v0⟩ := e
    by_cases h1 : k0 = k
    · subst h1
      simp [set, keys]
    · by_cases h2 : k < k0
      · simp [set, keys, h1, h2]
      · have ih2 := ih
        simp only [keys] at ih2
        simp only [set, h1, h2, keys, if_false, List.map_cons, List.mem_cons, ih2]
        tauto

theorem valid_set (m : StdMap Nat Nat) (k v : Nat) (h : Valid m) : Valid (set m k v) := by
  induction m with
  | nil => simp [set, Valid, keys]
  | cons e rest ih =>
    obtain ⟨k0, v0⟩ := e
    have hrest : Valid rest := by
      simp only [Valid, keys, List.map_cons, List.pairwise_cons] at h
      exact h.2
    have hhead : ∀ a ∈ keys rest, k0 < a := by
      simp only [Valid, keys, List.map_cons, List.pairwise_cons] at h
      exact h.1
    by_cases h1 : k0 = k
    · simp only [set, h1, if_true]
      simp only [Valid, keys, List.map_cons, List.pairwise_cons] at h ⊢
      subst h1
      exact h
    · by_cases h2 : k < k0
      · simp only [set, h1, h2, if_true, if_false]
        simp only [Valid, keys, List.map_cons, List.pairwise_cons, List.mem_cons] at h ⊢
        refine ⟨?_, h⟩
        intro a ha
        rcases ha with ha | ha
        · omega
        · have := h.1 a ha
          omega
      · simp only [set, h1, h2, if_false]
        have ih2 := ih hrest
        simp only [Valid, keys, List.map_cons, List.pairwise_cons] at ih2 ⊢
        refine ⟨?_, ih2⟩
        intro a ha
        have ha2 : a ∈ keys (set rest k v) := ha
        rw [mem_keys_set] at ha2
        rcases ha2 with ha2 | ha2
        · omega
        · exact hhead a ha2

theorem find_of_mem (m : StdMap Nat Nat) (h : Valid m) (k v : Nat) (hm : (k, v) ∈ m) :
    find m k = some v := by
  induction m with
  | nil => simp at hm
  | cons e rest ih =>
    obtain ⟨k0, v0⟩ := e
    simp only [Valid, keys, List.map_cons, List.pairwise_cons] at h
    rcases List.mem_cons.mp hm with hm | hm
    · injection hm with hk hv
      simp [find, hk, hv]
    · have hk : k0 < k := h.1 k (List.mem_map.mpr ⟨(k, v), hm, rfl⟩)
      have hne : k0 ≠ k := by omega
      simp only [find, hne, if_false]
      exact ih h.2 hm

theorem mem_of_find (m : StdMap Nat Nat) (k v : Nat) (h : find m k = some v) : (k, v) ∈ m := by
  induction m with
  | nil => simp [find] at h
  | cons e rest ih =>
    obtain ⟨k0, v0⟩ := e
    by_cases h1 : k0 = k
    · simp only [find, h1, if_true, Option.some.injEq] at h
      simp [h1, h]
    · simp only [find, h1, if_false] at h
      exact List.mem_cons_of_mem _ (ih h)

/-- An entry of the map is still there after a `set`, unless it was the entry found under the key set. -/
theorem mem_set_of_mem (m : StdMap Nat Nat) (k v : Nat) (e : Nat × Nat) (he : e ∈ m) :
    e ∈ set m k v ∨ (e.1 = k ∧ find m k = some e.2) := by
  induction m with
  | nil => simp at he
  | cons e0 rest ih =>
    obtain ⟨k0, v0⟩ := e0
    by_cases h1 : k0 = k
    · rcases List.mem_cons.mp he with he | he
      · right
        subst he
        simp [find, h1]
      · left
        simp [set, h1, he]
    · by_cases h2 : k < k0
      · left
        simp only [set, h1, h2, if_true, if_false]
        exact List.mem_cons_of_mem _ he
      · rcases List.mem_cons.mp he with he | he
        · left
          simp [set, h1, h2, he]
        · rcases ih he with h3 | h3
          · left
            simp [set, h1, h2, h3]
          · right
            simp [find, h1, h3]

end StdMap

/-! ## Lemmas on bitmasks -/

theorem mask_or_and (a t f : Nat) : (a ||| t) &&& f = (a &&& f) ||| (t &&& f) := by
  apply Nat.eq_of_testBit_eq
  intro i
  simp only [Nat.testBit_and, Nat.testBit_or]
  cases a.testBit i <;> cases t.testBit i <;> cases f.testBit i <;> rfl

theorem mask_or_eq_zero (x y : Nat) (h : x ||| y = 0) : x = 0 := by
  apply Nat.eq_of_testBit_eq
  intro i
  have h2 : (x ||| y).testBit i = false := by rw [h]; simp
  simp only [Nat.testBit_or, Bool.or_eq_false_iff] at h2
  simp [h2.1]

theorem mask_intersects_or (a t f : Nat) (h : a &&& f ≠ 0) : (a ||| t) &&& f ≠ 0 := by
  intro h2
  rw [mask_or_and] at h2
  exact h (mask_or_eq_zero _ _ h2)

theorem mask_superset_or (a t s : Nat) (h : a &&& s = s) : (a ||| t) &&& s = s := by
  apply Nat.eq_of_testBit_eq
  intro i
  have h2 : (a &&& s).testBit i = s.testBit i := by rw [h]
  simp only [Nat.testBit_and, Nat.testBit_or] at h2 ⊢
  revert h2
  cases a.testBit i <;> cases t.testBit i <;> cases s.testBit i <;> simp

/-! ## Lemmas on the evaluator -/

namespace NPC

theorem record_of_mem (ships : List Ship) (actions : StdMap Nat Nat) (event : ShipEvent)
    (h : event.target ∈ ships.map Ship.ptr) :
    record ships actions event =
      StdMap.set actions event.target
        ((StdMap.find actions event.target).getD 0 ||| event.type) := by
  induction ships with
  | nil => simp at h
  | cons ship rest ih =>
    by_cases h1 : ship.ptr = event.target
    · simp [record, h1]
    · simp only [List.map_cons, List.mem_cons] at h
      rcases h with h | h
      · exact absurd h.symm h1
      · simp only [record, h1, if_false]
        exact ih h

theorem record_of_not_mem (ships : List Ship) (actions : StdMap Nat Nat) (event : ShipEvent)
    (h : event.target ∉ ships.map Ship.ptr) : record ships actions event = actions := by
  induction ships with
  | nil => rfl
  | cons ship rest ih =>
    simp only [List.map_cons, List.mem_cons, not_or] at h
    have h1 : ship.ptr ≠ event.target := fun h2 => h.1 h2.symm
    simp only [record, h1, if_false]
    exact ih h.2

theorem Do_fst (self : NPC) (event : ShipEvent) (ui : Bool) :
    (self.Do event ui).1 = { self with actions := record self.ships self.actions event } := by
  unfold Do
  simp only
  split
  · rfl
  · split
    · split
      · rfl
      · split <;> rfl
    · rfl

theorem Do_ships (self : NPC) (event : ShipEvent) (ui : Bool) :
    (self.Do event ui).1.ships = self.ships := by
  rw [Do_fst]

theorem Do_failIf (self : NPC) (event : ShipEvent) (ui : Bool) :
    (self.Do event ui).1.failIf = self.failIf := by
  rw [Do_fst]

theorem Do_succeedIf (self : NPC) (event : ShipEvent) (ui : Bool) :
    (self.Do event ui).1.succeedIf = self.succeedIf := by
  rw [Do_fst]

theorem Do_actions (self : NPC) (event : ShipEvent) (ui : Bool) :
    (self.Do event ui).1.actions = record self.ships self.actions event := by
  rw [Do_fst]

theorem HasFailed_iff (self : NPC) :
    self.HasFailed = true ↔ ∃ it ∈ self.actions, it.2 &&& self.failIf ≠ 0 := by
  simp [HasFailed]

theorem HasFailed_eq_false_iff (self : NPC) :
    self.HasFailed = false ↔ ∀ it ∈ self.actions, it.2 &&& self.failIf = 0 := by
  simp [HasFailed]

theorem HasSucceeded_iff (self : NPC) :
    self.HasSucceeded = true ↔
      self.HasFailed = false ∧
        (self.succeedIf = 0 ∨
          ∀ ship ∈ self.ships, self.maskOf ship.ptr &&& self.succeedIf = self.succeedIf) := by
  unfold HasSucceeded
  by_cases hf : self.HasFailed = true
  · simp [hf]
  · by_cases hs : self.succeedIf = 0
    · simp [hf, hs]
    · have hf2 : self.HasFailed = false := by simpa using hf
      rw [if_neg hf, if_neg hs, List.all_eq_true]
      simp only [hf2, hs, false_or, true_and]
      constructor
      · intro h ship hship
        have h2 := h ship hship
        unfold maskOf
        cases hfind : StdMap.find self.actions ship.ptr with
        | none => simp [hfind] at h2
        | some v => simpa [hfind] using h2
      · intro h ship hship
        have h2 := h ship hship
        unfold maskOf at h2
        cases hfind : StdMap.find self.actions ship.ptr with
        | none =>
          simp only [hfind, Option.getD_none, Nat.zero_and] at h2
          exact absurd h2.symm hs
        | some v => simpa [hfind] using h2

end NPC

/-! ## Lemmas on Do -/

namespace NPC

theorem Do_of_not_mem (self : NPC) (event : ShipEvent) (ui : Bool)
    (h : event.target ∉ self.ships.map Ship.ptr) : self.Do event ui = (self, []) := by
  unfold Do
  simp only [record_of_not_mem self.ships self.actions event h]
  have h1 : ({ self with actions := self.actions } : NPC) = self := rfl
  rw [h1]
  cases self.HasFailed <;> cases self.HasSucceeded <;> cases ui <;> simp

theorem HasFailed_Do (self : NPC) (event : ShipEvent) (ui : Bool) (h : self.HasFailed = true) :
    (self.Do event ui).1.HasFailed = true := by
  rw [HasFailed_iff] at h ⊢
  obtain ⟨it, hit, hne⟩ := h
  rw [Do_actions, Do_failIf]
  by_cases hm : event.target ∈ self.ships.map Ship.ptr
  · rw [record_of_mem _ _ _ hm]
    rcases StdMap.mem_set_of_mem self.actions event.target
        ((StdMap.find self.actions event.target).getD 0 ||| event.type) it hit with h1 | h1
    · exact ⟨it, h1, hne⟩
    · refine ⟨(event.target, it.2 ||| event.type), ?_, mask_intersects_or _ _ _ hne⟩
      apply StdMap.mem_of_find
      rw [StdMap.find_set_self, h1.2]
      rfl
  · rw [record_of_not_mem _ _ _ hm]
    exact ⟨it, hit, hne⟩

theorem HasFailed_run (self : NPC) (events : List (ShipEvent × Bool)) (h : self.HasFailed = true) :
    (self.run events).HasFailed = true := by
  induction events generalizing self with
  | nil => exact h
  | cons e rest ih =>
    obtain ⟨event, ui⟩ := e
    exact ih _ (HasFailed_Do self event ui h)

theorem HasSucceeded_false_of_failed (self : NPC) (h : self.HasFailed = true) :
    self.HasSucceeded = false := by
  simp [HasSucceeded, h]

theorem run_ships (self : NPC) (events : List (ShipEvent × Bool)) :
    (self.run events).ships = self.ships := by
  induction events generalizing self with
  | nil => rfl
  | cons e rest ih =>
    obtain ⟨event, ui⟩ := e
    simp only [run]
    rw [ih, Do_ships]

theorem WellFormed_Do (self : NPC) (event : ShipEvent) (ui : Bool) (h : self.WellFormed) :
    (self.Do event ui).1.WellFormed := by
  unfold WellFormed at h ⊢
  rw [Do_actions, Do_ships]
  by_cases hm : event.target ∈ self.ships.map Ship.ptr
  · rw [record_of_mem _ _ _ hm]
    refine ⟨StdMap.valid_set _ _ _ h.1, ?_⟩
    intro k hk
    rw [StdMap.mem_keys_set] at hk
    rcases hk with hk | hk
    · rw [hk]
      exact hm
    · exact h.2 k hk
  · rw [record_of_not_mem _ _ _ hm]
    exact h

theorem WellFormed_run (self : NPC) (events : List (ShipEvent × Bool)) (h : self.WellFormed) :
    (self.run events).WellFormed := by
  induction events generalizing self with
  | nil => exact h
  | cons e rest ih =>
    obtain ⟨event, ui⟩ := e
    exact ih _ (WellFormed_Do self event ui h)

theorem HasFailed_iff_of_WellFormed (self : NPC) (h : self.WellFormed) :
    self.HasFailed = true ↔ self.SomeActorFailed := by
  rw [HasFailed_iff]
  unfold SomeActorFailed maskOf
  constructor
  · rintro ⟨it, hit, hne⟩
    have hkey : it.1 ∈ self.ships.map Ship.ptr :=
      h.2 it.1 (List.mem_map.mpr ⟨it, hit, rfl⟩)
    obtain ⟨ship, hship, hptr⟩ := List.mem_map.mp hkey
    refine ⟨ship, hship, ?_⟩
    rw [hptr, StdMap.find_of_mem self.actions h.1 it.1 it.2 hit]
    exact hne
  · rintro ⟨ship, _, hne⟩
    cases hfind : StdMap.find self.actions ship.ptr with
    | none => simp [hfind] at hne
    | some v =>
      rw [hfind] at hne
      exact ⟨(ship.ptr, v), StdMap.mem_of_find _ _ _ hfind, hne⟩

theorem Instantiate_actions (w : World) (self : NPC) (subs : Subs) (origin : Option System)
    (rnd : Random) (heap : Nat) : (Instantiate w self subs origin rnd heap).1.actions = [] := by
  unfold Instantiate
  rfl

theorem WellFormed_Instantiate (w : World) (self : NPC) (subs : Subs) (origin : Option System)
    (rnd : Random) (heap : Nat) : (Instantiate w self subs origin rnd heap).1.WellFormed := by
  unfold WellFormed
  rw [Instantiate_actions]
  simp [StdMap.Valid, StdMap.keys]

end NPC

/-! ## Lemmas on Load -/

namespace NPC

theorem LoadToken_ships (k : EventKinds) (self : NPC) (tok : String) :
    (LoadToken k self tok).ships = self.ships := by
  unfold LoadToken
  simp only
  split_ifs <;> rfl

theorem LoadToken_actions (k : EventKinds) (self : NPC) (tok : String) :
    (LoadToken k self tok).actions = self.actions := by
  unfold LoadToken
  simp only
  split_ifs <;> rfl

theorem foldl_LoadToken_ships (k : EventKinds) (toks : List String) (self : NPC) :
    (toks.foldl (LoadToken k) self).ships = self.ships := by
  induction toks generalizing self with
  | nil => rfl
  | cons tok rest ih => rw [List.foldl_cons, ih, LoadToken_ships]

theorem foldl_LoadToken_actions (k : EventKinds) (toks : List String) (self : NPC) :
    (toks.foldl (LoadToken k) self).actions = self.actions := by
  induction toks generalizing self with
  | nil => rfl
  | cons tok rest ih => rw [List.foldl_cons, ih, LoadToken_actions]

theorem foldl_LoadActions (w : World) (ptr : Nat) (grands : List DataNode)
    (actions : StdMap Nat Nat) (h : StdMap.Valid actions) :
    StdMap.Valid (grands.foldl (LoadActions w ptr) actions) ∧
      ∀ k ∈ StdMap.keys (grands.foldl (LoadActions w ptr) actions),
        k = ptr ∨ k ∈ StdMap.keys actions := by
  induction grands generalizing actions with
  | nil => exact ⟨h, fun k hk => Or.inr hk⟩
  | cons grand rest ih =>
    rw [List.foldl_cons]
    by_cases hc : grand.Token 0 = "actions" ∧ grand.Size ≥ 2
    · have hstep : LoadActions w ptr actions grand =
          StdMap.set actions ptr (w.Value (grand.Token 1)) := by
        simp only [LoadActions, hc, and_self, if_true]
      rw [hstep]
      obtain ⟨h1, h2⟩ := ih _ (StdMap.valid_set actions ptr _ h)
      refine ⟨h1, ?_⟩
      intro k hk
      rcases h2 k hk with h3 | h3
      · exact Or.inl h3
      · exact (StdMap.mem_keys_set _ _ _ _).mp h3
    · have hstep : LoadActions w ptr actions grand = actions := by
        simp only [LoadActions, hc, if_false]
      rw [hstep]
      exact ih _ h

theorem WellFormed_LoadChild (w : World) (st : NPC × Nat) (child : DataNode)
    (h : st.1.WellFormed) : (LoadChild w st child).1.WellFormed := by
  unfold LoadChild
  simp only
  by_cases c1 : (decide (child.Token 0 = "enter") || decide (child.Token 0 = "remain")
      || decide (child.Token 0 = "wait")) = true
  · rw [if_pos c1]
    by_cases c2 : child.Size ≥ 2
    · rw [if_pos c2]; exact h
    · rw [if_neg c2]; exact h
  rw [if_neg c1]
  by_cases c3 : child.Token 0 = "succeed" ∧ child.Size ≥ 2
  · rw [if_pos c3]; exact h
  rw [if_neg c3]
  by_cases c4 : child.Token 0 = "fail" ∧ child.Size ≥ 2
  · rw [if_pos c4]; exact h
  rw [if_neg c4]
  by_cases c5 : child.Token 0 = "government" ∧ child.Size ≥ 2
  · rw [if_pos c5]; exact h
  rw [if_neg c5]
  by_cases c6 : child.Token 0 = "dialog"
  · rw [if_pos c6]; exact h
  rw [if_neg c6]
  by_cases c7 : child.Token 0 = "conversation" ∧ child.HasChildren = true
  · rw [if_pos c7]; exact h
  rw [if_neg c7]
  by_cases c8 : child.Token 0 = "conversation" ∧ child.Size > 1
  · rw [if_pos c8]; exact h
  rw [if_neg c8]
  by_cases c9 : child.Token 0 = "ship"
  · rw [if_pos c9]
    by_cases c10 : child.HasChildren = true
    · rw [if_pos c10]
      obtain ⟨h1, h2⟩ := foldl_LoadActions w st.2 child.children st.1.actions h.1
      refine ⟨h1, ?_⟩
      intro k hk
      simp only [List.map_append, List.map_cons, List.map_nil, List.mem_append,
        List.mem_singleton]
      rcases h2 k hk with h3 | h3
      · exact Or.inr h3
      · exact Or.inl (h.2 k h3)
    · rw [if_neg c10]
      by_cases c11 : child.Size ≥ 2
      · rw [if_pos c11]; exact h
      · rw [if_neg c11]; exact h
  rw [if_neg c9]
  by_cases c12 : child.Token 0 = "fleet"
  · rw [if_pos c12]
    by_cases c13 : child.HasChildren = true
    · rw [if_pos c13]; exact h
    · rw [if_neg c13]
      by_cases c14 : child.Size ≥ 2
      · rw [if_pos c14]; exact h
      · rw [if_neg c14]; exact h
  rw [if_neg c12]
  exact h

theorem WellFormed_foldl_LoadChild (w : World) (children : List DataNode) (st : NPC × Nat)
    (h : st.1.WellFormed) : (children.foldl (LoadChild w) st).1.WellFormed := by
  induction children generalizing st with
  | nil => exact h
  | cons child rest ih =>
    rw [List.foldl_cons]
    exact ih _ (WellFormed_LoadChild w st child h)

theorem WellFormed_Load (w : World) (self : NPC) (node : DataNode) (heap : Nat)
    (h : self.WellFormed) : (Load w self node heap).WellFormed := by
  have h0 : ((node.tokens.drop 1).foldl (LoadToken w.kinds) self).WellFormed := by
    unfold WellFormed
    rw [foldl_LoadToken_actions, foldl_LoadToken_ships]
    exact h
  have h1 := WellFormed_foldl_LoadChild w node.children
    ((node.tokens.drop 1).foldl (LoadToken w.kinds) self, heap) h0
  unfold Load
  unfold WellFormed at h1 ⊢
  simp only [List.map_map]
  refine ⟨h1.1, ?_⟩
  intro k hk
  have h2 := h1.2 k hk
  simpa [Function.comp_def, Ship.update] using h2

theorem WellFormed_default : ({} : NPC).WellFormed := by
  simp [WellFormed, StdMap.Valid, StdMap.keys]

theorem actions_nil_of_ships_nil (self : NPC) (h : self.WellFormed) (hs : self.ships = []) :
    self.actions = [] := by
  cases hact : self.actions with
  | nil => rfl
  | cons it rest =>
    have h2 := h.2 it.1 (by simp [hact, StdMap.keys])
    simp [hs] at h2

end NPC

/-! ## Lemmas on the notices of Do -/

namespace NPC

theorem Do_snd (self : NPC) (event : ShipEvent) (ui : Bool) :
    (self.Do event ui).2 =
      if ((self.Do event ui).1.HasFailed && !self.HasFailed) = true then [failNotice]
      else if (ui && (self.Do event ui).1.HasSucceeded && !self.HasSucceeded) = true then
        if (!self.conversation.IsEmpty) = true then [Notice.conversationPanel self.conversation]
        else if (!self.dialogText.isEmpty) = true then [Notice.dialog self.dialogText]
        else []
      else [] := by
  rw [Do_fst]
  unfold Do
  simp only
  split
  · rfl
  · split
    · split
      · rfl
      · split <;> rfl
    · rfl

theorem failNotice_mem_Do (self : NPC) (event : ShipEvent) (ui : Bool) :
    failNotice ∈ (self.Do event ui).2 ↔
      (self.HasFailed = false ∧ (self.Do event ui).1.HasFailed = true) := by
  rw [Do_snd]
  cases (self.Do event ui).1.HasFailed <;> cases self.HasFailed <;>
    cases (ui && (self.Do event ui).1.HasSucceeded && !self.HasSucceeded) <;>
    cases (!self.conversation.IsEmpty) <;> cases (!self.dialogText.isEmpty) <;>
    simp [failNotice]

theorem push_mem_Do (self : NPC) (event : ShipEvent) (ui : Bool)
    (h : (self.Do event ui).2.any Notice.isPush = true) :
    self.HasSucceeded = false ∧ (self.Do event ui).1.HasSucceeded = true := by
  rw [Do_snd] at h
  revert h
  cases (self.Do event ui).1.HasFailed <;> cases self.HasFailed <;>
    cases (self.Do event ui).1.HasSucceeded <;> cases self.HasSucceeded <;> cases ui <;>
    cases (!self.conversation.IsEmpty) <;> cases (!self.dialogText.isEmpty) <;>
    simp [failNotice, Notice.isPush]

theorem maskOf_Do_superset (self : NPC) (event : ShipEvent) (ui : Bool) (b : Nat)
    (h : self.maskOf b &&& self.succeedIf = self.succeedIf) :
    (self.Do event ui).1.maskOf b &&& self.succeedIf = self.succeedIf := by
  unfold maskOf at h ⊢
  rw [Do_actions]
  by_cases hm : event.target ∈ self.ships.map Ship.ptr
  · rw [record_of_mem _ _ _ hm]
    by_cases hb : b = event.target
    · subst hb
      rw [StdMap.find_set_self]
      exact mask_superset_or _ _ _ h
    · rw [StdMap.find_set_ne _ _ _ _ hb]
      exact h
  · rw [record_of_not_mem _ _ _ hm]
    exact h

/-- A succeeded record stays succeeded by an event, unless the event makes it fail. -/
theorem HasSucceeded_Do (self : NPC) (event : ShipEvent) (ui : Bool)
    (h : self.HasSucceeded = true) (hf : (self.Do event ui).1.HasFailed = false) :
    (self.Do event ui).1.HasSucceeded = true := by
  rw [HasSucceeded_iff] at h ⊢
  refine ⟨hf, ?_⟩
  rw [Do_succeedIf, Do_ships]
  rcases h.2 with h0 | hall
  · exact Or.inl h0
  · exact Or.inr (fun ship hship => maskOf_Do_superset self event ui ship.ptr (hall ship hship))

/-- The record has reached a verdict: it has succeeded or it has failed. -/
theorem settled_Do (self : NPC) (event : ShipEvent) (ui : Bool)
    (h : self.HasSucceeded = true ∨ self.HasFailed = true) :
    (self.Do event ui).1.HasSucceeded = true ∨ (self.Do event ui).1.HasFailed = true := by
  rcases h with h | h
  · cases hf : (self.Do event ui).1.HasFailed with
    | true => exact Or.inr rfl
    | false => exact Or.inl (HasSucceeded_Do self event ui h hf)
  · exact Or.inr (HasFailed_Do self event ui h)

theorem no_push_of_settled (self : NPC) (event : ShipEvent) (ui : Bool)
    (h : self.HasSucceeded = true ∨ self.HasFailed = true) :
    (self.Do event ui).2.any Notice.isPush = false := by
  rw [Bool.eq_false_iff]
  intro hpush
  obtain ⟨h1, h2⟩ := push_mem_Do self event ui hpush
  rcases h with h | h
  · rw [h] at h1
    exact Bool.noConfusion h1
  · have h3 := HasSucceeded_false_of_failed _ (HasFailed_Do self event ui h)
    rw [h3] at h2
    exact Bool.noConfusion h2

theorem countP_fail_of_failed (self : NPC) (events : List (ShipEvent × Bool))
    (h : self.HasFailed = true) :
    (self.notices events).countP (fun ns => decide (failNotice ∈ ns)) = 0 := by
  induction events generalizing self with
  | nil => rfl
  | cons e rest ih =>
    obtain ⟨event, ui⟩ := e
    simp only [notices, List.countP_cons]
    rw [ih _ (HasFailed_Do self event ui h)]
    have hno : ¬ failNotice ∈ (self.Do event ui).2 := by
      rw [failNotice_mem_Do]
      intro h2
      rw [h] at h2
      exact Bool.noConfusion h2.1
    simp [hno]

theorem countP_fail_le_one (self : NPC) (events : List (ShipEvent × Bool)) :
    (self.notices events).countP (fun ns => decide (failNotice ∈ ns)) ≤ 1 := by
  induction events generalizing self with
  | nil => simp [notices]
  | cons e rest ih =>
    obtain ⟨event, ui⟩ := e
    simp only [notices, List.countP_cons]
    by_cases hmem : failNotice ∈ (self.Do event ui).2
    · have hfailed := ((failNotice_mem_Do self event ui).mp hmem).2
      rw [countP_fail_of_failed _ rest hfailed]
      simp [hmem]
    · have := ih (self.Do event ui).1
      simp only [hmem, decide_False, Bool.false_eq_true, if_false, Nat.add_zero]
      exact this

theorem countP_push_of_settled (self : NPC) (events : List (ShipEvent × Bool))
    (h : self.HasSucceeded = true ∨ self.HasFailed = true) :
    (self.notices events).countP (fun ns => ns.any Notice.isPush) = 0 := by
  induction events generalizing self with
  | nil => rfl
  | cons e rest ih =>
    obtain ⟨event, ui⟩ := e
    simp only [notices, List.countP_cons]
    rw [ih _ (settled_Do self event ui h), no_push_of_settled self event ui h]
    simp

theorem countP_push_le_one (self : NPC) (events : List (ShipEvent × Bool)) :
    (self.notices events).countP (fun ns => ns.any Notice.isPush) ≤ 1 := by
  induction events generalizing self with
  | nil => simp [notices]
  | cons e rest ih =>
    obtain ⟨event, ui⟩ := e
    simp only [notices, List.countP_cons]
    cases hpush : (self.Do event ui).2.any Notice.isPush with
    | true =>
      have hs := (push_mem_Do self event ui hpush).2
      rw [countP_push_of_settled _ rest (Or.inl hs)]
      simp
    | false =>
      have := ih (self.Do event ui).1
      simpa using this

theorem fail_edge_at (self : NPC) (events : List (ShipEvent × Bool)) (i : Nat)
    (hi : i < events.length) :
    failNotice ∈ (self.notices events).getD i [] ↔
      ((self.run (events.take i)).HasFailed = false ∧
        (self.run (events.take (i + 1))).HasFailed = true) := by
  induction events generalizing self i with
  | nil => simp at hi
  | cons e rest ih =>
    obtain ⟨event, ui⟩ := e
    cases i with
    | zero =>
      simp only [notices, List.getD_cons_zero, List.take_zero, run, List.take_succ_cons,
        Nat.zero_add]
      exact failNotice_mem_Do self event ui
    | succ j =>
      simp only [notices, List.getD_cons_succ, List.take_succ_cons, run]
      exact ih (self.Do event ui).1 j (by simpa using hi)

theorem push_edge_at (self : NPC) (events : List (ShipEvent × Bool)) (i : Nat)
    (hi : i < events.length)
    (h : ((self.notices events).getD i []).any Notice.isPush = true) :
    (self.run (events.take i)).HasSucceeded = false ∧
      (self.run (events.take (i + 1))).HasSucceeded = true := by
  induction events generalizing self i with
  | nil => simp at hi
  | cons e rest ih =>
    obtain ⟨event, ui⟩ := e
    cases i with
    | zero =>
      simp only [notices, List.getD_cons_zero] at h
      simp only [List.take_zero, run, List.take_succ_cons, Nat.zero_add]
      exact push_mem_Do self event ui h
    | succ j =>
      simp only [notices, List.getD_cons_succ] at h
      simp only [List.take_succ_cons, run]
      exact ih (self.Do event ui).1 j (by simpa using hi) h

end NPC

/-! ## Lemmas on Instantiate -/

namespace NPC

/-- The last loop over the ships of `Instantiate` hands every ship the government
member of the template. -/
theorem Instantiate_ships_government (w : World) (self : NPC) (subs : Subs)
    (origin : Option System) (rnd : Random) (heap : Nat) :
    ∀ ship ∈ (Instantiate w self subs origin rnd heap).1.ships,
      ship.obj.government = self.government ∧ ship.obj.isSpecial = true := by
  intro ship hship
  unfold Instantiate at hship
  simp only [List.mem_map] at hship
  obtain ⟨ship0, _, rfl⟩ := hship
  exact ⟨rfl, rfl⟩

theorem Instantiate_government (w : World) (self : NPC) (subs : Subs)
    (origin : Option System) (rnd : Random) (heap : Nat) :
    (Instantiate w self subs origin rnd heap).1.government =
      if self.government.isNone then w.PlayerGovernment else self.government := by
  unfold Instantiate
  rfl

end NPC

/-! ## The evaluator: claims on Do, HasFailed and HasSucceeded -/

/-- C1: for every record, every event type mask `t` and every actor `a` that is one
of the record's ships, `NPC::Do` with target `a` makes the accumulated mask of `a`
the old mask (0 without an entry) OR `t`, and leaves the entry and the accumulated
mask of every other actor as they were. -/
theorem C1_Do_ors_type_into_target_mask (r : NPC) (t a : Nat) (ui : Bool)
    (ha : a ∈ r.ships.map Ship.ptr) :
    (r.Do ⟨a, t⟩ ui).1.maskOf a = r.maskOf a ||| t ∧
      ∀ b, b ≠ a →
        StdMap.find (r.Do ⟨a, t⟩ ui).1.actions b = StdMap.find r.actions b ∧
          (r.Do ⟨a, t⟩ ui).1.maskOf b = r.maskOf b := by
  have hrec := NPC.record_of_mem r.ships r.actions ⟨a, t⟩ ha
  simp only at hrec
  constructor
  · unfold NPC.maskOf
    rw [NPC.Do_actions, hrec, StdMap.find_set_self]
    rfl
  · intro b hb
    have hfind : StdMap.find (r.Do ⟨a, t⟩ ui).1.actions b = StdMap.find r.actions b := by
      rw [NPC.Do_actions, hrec, StdMap.find_set_ne _ _ _ _ hb]
    refine ⟨hfind, ?_⟩
    unfold NPC.maskOf
    rw [hfind]

/-- C1 at the sample record: a DESTROY event for the actor at address 1. -/
theorem C1_Do_ors_type_into_target_mask_witness :
    1 ∈ sampleRecord.ships.map Ship.ptr ∧
      (sampleRecord.Do ⟨1, 128⟩ true).1.maskOf 1 = sampleRecord.maskOf 1 ||| 128 ∧
      ∀ b, b ≠ 1 →
        StdMap.find (sampleRecord.Do ⟨1, 128⟩ true).1.actions b
            = StdMap.find sampleRecord.actions b ∧
          (sampleRecord.Do ⟨1, 128⟩ true).1.maskOf b = sampleRecord.maskOf b :=
  ⟨by decide, C1_Do_ors_type_into_target_mask sampleRecord 128 1 true (by decide)⟩

/-- C2: for every record reached from `Instantiate`, or from `Load` into a fresh
NPC, by any sequence of `Do` events, `HasFailed()` is true if and only if some
ship of the record has an accumulated mask with a non-zero AND with `failIf`. -/
theorem C2_HasFailed_iff_some_actor_failed (w : World) (template : NPC) (subs : Subs)
    (origin : Option System) (rnd : Random) (heap : Nat) (node : DataNode)
    (events : List (ShipEvent × Bool)) :
    (((NPC.Instantiate w template subs origin rnd heap).1.run events).HasFailed = true ↔
        ((NPC.Instantiate w template subs origin rnd heap).1.run events).SomeActorFailed) ∧
      (((NPC.Load w {} node heap).run events).HasFailed = true ↔
        ((NPC.Load w {} node heap).run events).SomeActorFailed) :=
  ⟨NPC.HasFailed_iff_of_WellFormed _
      (NPC.WellFormed_run _ events (NPC.WellFormed_Instantiate w template subs origin rnd heap)),
    NPC.HasFailed_iff_of_WellFormed _
      (NPC.WellFormed_run _ events (NPC.WellFormed_Load w {} node heap NPC.WellFormed_default))⟩

/-- C3: for every record with `succeedIf != 0`, `HasSucceeded()` is true if and only
if `HasFailed()` is false and every ship has an accumulated mask `m` (0 without an
entry) with `(m AND succeedIf) == succeedIf`; and a succeeded record to whose ships
one more actor is added whose mask is not a superset of `succeedIf` has not
succeeded. -/
theorem C3_HasSucceeded_iff_all_actors_done (r : NPC) (h : r.succeedIf ≠ 0) :
    (r.HasSucceeded = true ↔ (r.HasFailed = false ∧ r.AllActorsDone)) ∧
      ∀ extra : Ship, r.HasSucceeded = true →
        r.maskOf extra.ptr &&& r.succeedIf ≠ r.succeedIf →
        ({ r with ships := r.ships ++ [extra] } : NPC).HasSucceeded = false := by
  constructor
  · rw [NPC.HasSucceeded_iff]
    simp only [h, false_or]
    rfl
  · intro extra _ hextra
    rw [Bool.eq_false_iff]
    intro hcontra
    rw [NPC.HasSucceeded_iff] at hcontra
    rcases hcontra.2 with h0 | hall
    · exact h h0
    · exact hextra (hall extra (by simp))

/-- C3 at the sample record with the second actor alone, which is disabled: the
record has succeeded, and has not once the first actor, without progress, joins. -/
theorem C3_HasSucceeded_iff_all_actors_done_witness :
    ({ sampleRecord with ships := [⟨2, { name := "B" }⟩] } : NPC).succeedIf ≠ 0 ∧
      ({ sampleRecord with ships := [⟨2, { name := "B" }⟩] } : NPC).HasSucceeded = true ∧
      ({ sampleRecord with ships := [⟨2, { name := "B" }⟩] } : NPC).maskOf 1 &&& 16 ≠ 16 ∧
      ({ sampleRecord with ships := [⟨2, { name := "B" }⟩, ⟨1, { name := "A" }⟩] }
        : NPC).HasSucceeded = false :=
  ⟨by decide, by decide, by decide,
    (C3_HasSucceeded_iff_all_actors_done
      { sampleRecord with ships := [⟨2, { name := "B" }⟩] } (by decide)).2
      ⟨1, { name := "A" }⟩ (by decide) (by decide)⟩

/-- C4: fail dominates and is permanent. For every record in which some actor has
an accumulated mask that intersects `failIf`, and every finite sequence of further
`Do` events, `HasFailed()` is true and `HasSucceeded()` is false after each event
of the sequence. -/
theorem C4_fail_dominates_and_is_permanent (r : NPC) (a : Nat)
    (h : r.maskOf a &&& r.failIf ≠ 0) (events : List (ShipEvent × Bool)) (n : Nat) :
    (r.run (events.take n)).HasFailed = true ∧
      (r.run (events.take n)).HasSucceeded = false := by
  have hfailed : r.HasFailed = true := by
    rw [NPC.HasFailed_iff]
    unfold NPC.maskOf at h
    cases hfind : StdMap.find r.actions a with
    | none => simp [hfind] at h
    | some v =>
      rw [hfind] at h
      exact ⟨(a, v), StdMap.mem_of_find _ _ _ hfind, h⟩
  have hrun := NPC.HasFailed_run r (events.take n) hfailed
  exact ⟨hrun, NPC.HasSucceeded_false_of_failed _ hrun⟩

/-- C4 on the scenario of the specification: `failIf = DESTROY`, `succeedIf =
DISABLE`, the actor at address 1 is disabled and then destroyed; the record is
failed and not succeeded then, and after two more events of a longer sequence. -/
theorem C4_fail_dominates_and_is_permanent_witness :
    (({ sampleRecord with actions := [] } : NPC).run
        [(⟨1, 16⟩, true), (⟨1, 128⟩, true)]).maskOf 1 &&& 128 ≠ 0 ∧
      ((({ sampleRecord with actions := [] } : NPC).run
          [(⟨1, 16⟩, true), (⟨1, 128⟩, true)]).run
            ([(⟨2, 16⟩, true), (⟨1, 16⟩, true), (⟨2, 32⟩, false)].take 2)).HasFailed = true ∧
      ((({ sampleRecord with actions := [] } : NPC).run
          [(⟨1, 16⟩, true), (⟨1, 128⟩, true)]).run
            ([(⟨2, 16⟩, true), (⟨1, 16⟩, true), (⟨2, 32⟩, false)].take 2)).HasSucceeded
        = false :=
  ⟨by decide,
    C4_fail_dominates_and_is_permanent
      (({ sampleRecord with actions := [] } : NPC).run [(⟨1, 16⟩, true), (⟨1, 128⟩, true)])
      1 (by decide) [(⟨2, 16⟩, true), (⟨1, 16⟩, true), (⟨2, 32⟩, false)] 2⟩

/-- C5: recording an event is idempotent. For every record, every actor `a`, tracked
or not, and every event type `t`, applying `NPC::Do` with `(a, t)` twice leaves
the whole record in the state one application leaves it in. -/
theorem C5_Do_is_idempotent (r : NPC) (a t : Nat) (ui1 ui2 ui3 : Bool) :
    ((r.Do ⟨a, t⟩ ui1).1.Do ⟨a, t⟩ ui2).1 = (r.Do ⟨a, t⟩ ui3).1 := by
  rw [NPC.Do_fst, NPC.Do_fst, NPC.Do_fst]
  simp only
  by_cases hm : a ∈ r.ships.map Ship.ptr
  · have hrec : ∀ actions : StdMap Nat Nat, NPC.record r.ships actions ⟨a, t⟩ =
        StdMap.set actions a ((StdMap.find actions a).getD 0 ||| t) :=
      fun actions => NPC.record_of_mem r.ships actions ⟨a, t⟩ hm
    rw [hrec, hrec, StdMap.find_set_self, StdMap.set_set]
    simp only [Option.getD_some, Nat.or_assoc, Nat.or_self]
  · have hrec : ∀ actions : StdMap Nat Nat, NPC.record r.ships actions ⟨a, t⟩ = actions :=
      fun actions => NPC.record_of_not_mem r.ships actions ⟨a, t⟩ hm
    rw [hrec, hrec]

/-- C6: for every record and every event whose target is not one of the record's
ships, `NPC::Do` is a silent no-op: the record is unchanged, hence `HasSucceeded()`
and `HasFailed()` answer as before, and no notice is emitted. -/
theorem C6_Do_ignores_untracked_target (r : NPC) (event : ShipEvent) (ui : Bool)
    (h : event.target ∉ r.ships.map Ship.ptr) :
    (r.Do event ui).1 = r ∧ (r.Do event ui).2 = [] ∧
      (r.Do event ui).1.HasSucceeded = r.HasSucceeded ∧
      (r.Do event ui).1.HasFailed = r.HasFailed := by
  rw [NPC.Do_of_not_mem r event ui h]
  exact ⟨rfl, rfl, rfl, rfl⟩

/-- C6 at the sample record: a DESTROY event for an actor at address 3, which
the record does not track. -/
theorem C6_Do_ignores_untracked_target_witness :
    3 ∉ sampleRecord.ships.map Ship.ptr ∧
      (sampleRecord.Do ⟨3, 128⟩ true).1 = sampleRecord ∧
      (sampleRecord.Do ⟨3, 128⟩ true).2 = [] ∧
      (sampleRecord.Do ⟨3, 128⟩ true).1.HasSucceeded = sampleRecord.HasSucceeded ∧
      (sampleRecord.Do ⟨3, 128⟩ true).1.HasFailed = sampleRecord.HasFailed :=
  ⟨by decide, C6_Do_ignores_untracked_target sampleRecord ⟨3, 128⟩ true (by decide)⟩

/-- C7: for every record with `succeedIf == 0`, `HasSucceeded()` is the negation of
`HasFailed()`; and the record `Instantiate` returns for a template with
`succeedIf == 0` has `succeedIf == 0` and `HasSucceeded() == true` before any
event, whatever its actors. -/
theorem C7_zero_succeedIf_succeeds_unless_failed :
    (∀ r : NPC, r.succeedIf = 0 → r.HasSucceeded = !r.HasFailed) ∧
      ∀ (w : World) (template : NPC) (subs : Subs) (origin : Option System) (rnd : Random)
        (heap : Nat), template.succeedIf = 0 →
        (NPC.Instantiate w template subs origin rnd heap).1.succeedIf = 0 ∧
          (NPC.Instantiate w template subs origin rnd heap).1.HasSucceeded = true := by
  constructor
  · intro r h
    unfold NPC.HasSucceeded
    cases r.HasFailed <;> simp [h]
  · intro w template subs origin rnd heap h
    have hs : (NPC.Instantiate w template subs origin rnd heap).1.succeedIf = 0 := h
    refine ⟨hs, ?_⟩
    rw [NPC.HasSucceeded_iff, NPC.HasFailed_eq_false_iff, NPC.Instantiate_actions]
    exact ⟨fun it hit => absurd hit (List.not_mem_nil it), Or.inl hs⟩

/-- C7 at the sample record and the sample template, both with `succeedIf` set to 0. -/
theorem C7_zero_succeedIf_succeeds_unless_failed_witness :
    (({ sampleRecord with succeedIf := 0 } : NPC).HasSucceeded
        = !({ sampleRecord with succeedIf := 0 } : NPC).HasFailed) ∧
      (NPC.Instantiate sampleWorld { sampleTemplate with succeedIf := 0 } [] none
        sampleRandom 0).1.HasSucceeded = true :=
  ⟨C7_zero_succeedIf_succeeds_unless_failed.1 { sampleRecord with succeedIf := 0 } rfl,
    (C7_zero_succeedIf_succeeds_unless_failed.2 sampleWorld
      { sampleTemplate with succeedIf := 0 } [] none sampleRandom 0 rfl).2⟩

/-- C8: a record that `Instantiate`, or `Load` into a fresh NPC, produces with no
ship at all has `HasSucceeded()` true and `HasFailed()` false, whatever `succeedIf`
(non-zero too) and `failIf` are, and after any sequence of `Do` events as well. -/
theorem C8_no_actor_means_succeeded (w : World) (template : NPC) (subs : Subs)
    (origin : Option System) (rnd : Random) (heap : Nat) (node : DataNode)
    (events : List (ShipEvent × Bool)) :
    ((NPC.Instantiate w template subs origin rnd heap).1.ships = [] →
        ((NPC.Instantiate w template subs origin rnd heap).1.run events).HasSucceeded = true ∧
        ((NPC.Instantiate w template subs origin rnd heap).1.run events).HasFailed = false) ∧
      ((NPC.Load w {} node heap).ships = [] →
        ((NPC.Load w {} node heap).run events).HasSucceeded = true ∧
        ((NPC.Load w {} node heap).run events).HasFailed = false) := by
  have key : ∀ r : NPC, r.WellFormed → r.ships = [] →
      (r.run events).HasSucceeded = true ∧ (r.run events).HasFailed = false := by
    intro r hwf hships
    have hwf2 := NPC.WellFormed_run r events hwf
    have hships2 : (r.run events).ships = [] := by rw [NPC.run_ships, hships]
    have hact := NPC.actions_nil_of_ships_nil _ hwf2 hships2
    have hfailed : (r.run events).HasFailed = false := by
      rw [NPC.HasFailed_eq_false_iff, hact]
      exact fun it hit => absurd hit (List.not_mem_nil it)
    refine ⟨?_, hfailed⟩
    rw [NPC.HasSucceeded_iff]
    refine ⟨hfailed, Or.inr ?_⟩
    rw [hships2]
    exact fun ship hship => absurd hship (List.not_mem_nil ship)
  exact ⟨key _ (NPC.WellFormed_Instantiate w template subs origin rnd heap),
    key _ (NPC.WellFormed_Load w {} node heap NPC.WellFormed_default)⟩

/-- C8 at a template and at a node without actors, with `succeedIf` non-zero, and
two events. -/
theorem C8_no_actor_means_succeeded_witness :
    ((NPC.Instantiate sampleWorld emptyTemplate [] none sampleRandom 0).1.succeedIf ≠ 0 ∧
      (NPC.Load sampleWorld {} emptyNode 0).succeedIf ≠ 0) ∧
    (((NPC.Instantiate sampleWorld emptyTemplate [] none sampleRandom 0).1.run
          [(⟨1, 128⟩, true), (⟨2, 16⟩, false)]).HasSucceeded = true ∧
      ((NPC.Instantiate sampleWorld emptyTemplate [] none sampleRandom 0).1.run
          [(⟨1, 128⟩, true), (⟨2, 16⟩, false)]).HasFailed = false) ∧
    (((NPC.Load sampleWorld {} emptyNode 0).run
          [(⟨1, 128⟩, true), (⟨2, 16⟩, false)]).HasSucceeded = true ∧
      ((NPC.Load sampleWorld {} emptyNode 0).run
          [(⟨1, 128⟩, true), (⟨2, 16⟩, false)]).HasFailed = false) :=
  ⟨⟨by decide, by decide⟩,
    (C8_no_actor_means_succeeded sampleWorld emptyTemplate [] none sampleRandom 0 emptyNode
      [(⟨1, 128⟩, true), (⟨2, 16⟩, false)]).1 rfl,
    (C8_no_actor_means_succeeded sampleWorld emptyTemplate [] none sampleRandom 0 emptyNode
      [(⟨1, 128⟩, true), (⟨2, 16⟩, false)]).2 rfl⟩

/-- C9: notifications are edge-triggered. For every record, hence every instantiated
one, and every finite sequence of `Do` events, the "Mission failed." message is
emitted on exactly the events at which `HasFailed()` changes from false to true, at
most once in the whole sequence; and a dialog or conversation is pushed only on an
event at which `HasSucceeded()` changes from false to true, at most once in the whole
sequence. -/
theorem C9_notices_are_edge_triggered (r : NPC) (events : List (ShipEvent × Bool)) :
    (∀ i, i < events.length →
      (NPC.failNotice ∈ (r.notices events).getD i [] ↔
        ((r.run (events.take i)).HasFailed = false ∧
          (r.run (events.take (i + 1))).HasFailed = true))) ∧
      (r.notices events).countP (fun ns => decide (NPC.failNotice ∈ ns)) ≤ 1 ∧
      (∀ i, i < events.length →
        ((r.notices events).getD i []).any NPC.Notice.isPush = true →
          ((r.run (events.take i)).HasSucceeded = false ∧
            (r.run (events.take (i + 1))).HasSucceeded = true)) ∧
      (r.notices events).countP (fun ns => ns.any NPC.Notice.isPush) ≤ 1 :=
  ⟨fun i hi => NPC.fail_edge_at r events i hi, NPC.countP_fail_le_one r events,
    fun i hi h => NPC.push_edge_at r events i hi h, NPC.countP_push_le_one r events⟩

/-- C9 at the sample record without progress: the second actor is disabled, then
the first (the record succeeds, the dialog is pushed), then the first is destroyed
(the record fails, the message is emitted), then the second. -/
theorem C9_notices_are_edge_triggered_witness :
    (({ sampleRecord with actions := [] } : NPC).notices
        [(⟨2, 16⟩, true), (⟨1, 16⟩, true), (⟨1, 128⟩, true), (⟨2, 128⟩, true)]
      = [[], [NPC.Notice.dialog "Well done."], [NPC.failNotice], []]) ∧
    (NPC.failNotice ∈ (({ sampleRecord with actions := [] } : NPC).notices
        [(⟨2, 16⟩, true), (⟨1, 16⟩, true), (⟨1, 128⟩, true), (⟨2, 128⟩, true)]).getD 2 [] ↔
      ((({ sampleRecord with actions := [] } : NPC).run
          ([(⟨2, 16⟩, true), (⟨1, 16⟩, true), (⟨1, 128⟩, true), (⟨2, 128⟩, true)].take 2)).HasFailed
          = false ∧
        (({ sampleRecord with actions := [] } : NPC).run
          ([(⟨2, 16⟩, true), (⟨1, 16⟩, true), (⟨1, 128⟩, true), (⟨2, 128⟩, true)].take
            (2 + 1))).HasFailed = true)) ∧
    ((({ sampleRecord with actions := [] } : NPC).run
          ([(⟨2, 16⟩, true), (⟨1, 16⟩, true), (⟨1, 128⟩, true), (⟨2, 128⟩, true)].take 1)).HasSucceeded
          = false ∧
        (({ sampleRecord with actions := [] } : NPC).run
          ([(⟨2, 16⟩, true), (⟨1, 16⟩, true), (⟨1, 128⟩, true), (⟨2, 128⟩, true)].take
            (1 + 1))).HasSucceeded = true) :=
  ⟨by decide,
    (C9_notices_are_edge_triggered { sampleRecord with actions := [] }
      [(⟨2, 16⟩, true), (⟨1, 16⟩, true), (⟨1, 128⟩, true), (⟨2, 128⟩, true)]).1 2 (by decide),
    (C9_notices_are_edge_triggered { sampleRecord with actions := [] }
      [(⟨2, 16⟩, true), (⟨1, 16⟩, true), (⟨1, 128⟩, true), (⟨2, 128⟩, true)]).2.2.1 1
      (by decide) (by decide)⟩

/-! ## Instantiate: claims on the record it returns -/

/-- C10, the code at a template without government: `Instantiate` resolves the
government of the record to the player's government, gives the record one actor,
and hands that actor the unset government of the template, not the resolved one. -/
theorem C10_Instantiate_hands_actors_the_unresolved_government :
    sampleTemplate.government = none ∧
      (NPC.Instantiate sampleWorld sampleTemplate [] none sampleRandom 0).1.government
        = sampleWorld.PlayerGovernment ∧
      sampleWorld.PlayerGovernment = some escort ∧
      (NPC.Instantiate sampleWorld sampleTemplate [] none sampleRandom 0).1.ships.length = 1 ∧
      ∀ ship ∈ (NPC.Instantiate sampleWorld sampleTemplate [] none sampleRandom 0).1.ships,
        ship.obj.government = none ∧
          ship.obj.government ≠
            (NPC.Instantiate sampleWorld sampleTemplate [] none sampleRandom 0).1.government := by
  refine ⟨rfl, rfl, rfl, rfl, ?_⟩
  intro ship hship
  have h := (NPC.Instantiate_ships_government sampleWorld sampleTemplate [] none
    sampleRandom 0 ship hship).1
  rw [h]
  exact ⟨rfl, by decide⟩

/-- C11, the code at a template whose only actor is a stock ship named "Alice":
the record `Instantiate` returns has one actor, named "Alice", and the
substitution table is left as it was, without an entry for "<npc>". -/
theorem C11_Instantiate_binds_npc_for_inline_ships_only :
    stockTemplate.ships = [] ∧
      (NPC.Instantiate sampleWorld stockTemplate [] none sampleRandom 0).1.ships.map
        (fun ship => ship.obj.name) = ["Alice"] ∧
      (NPC.Instantiate sampleWorld stockTemplate [] none sampleRandom 0).2 = [] ∧
      StdMap.find (NPC.Instantiate sampleWorld stockTemplate [] none sampleRandom 0).2 "<npc>"
        = none := by
  decide

/-- C12: `Instantiate` copies `succeedIf` and `failIf` from the template, and the
government of the record is the template's when that is set and the player's
government otherwise. -/
theorem C12_Instantiate_resolves_conditions_and_government (w : World) (template : NPC)
    (subs : Subs) (origin : Option System) (rnd : Random) (heap : Nat) :
    (NPC.Instantiate w template subs origin rnd heap).1.succeedIf = template.succeedIf ∧
      (NPC.Instantiate w template subs origin rnd heap).1.failIf = template.failIf ∧
      (∀ g, template.government = some g →
        (NPC.Instantiate w template subs origin rnd heap).1.government = some g) ∧
      (template.government = none →
        (NPC.Instantiate w template subs origin rnd heap).1.government = w.PlayerGovernment) := by
  refine ⟨rfl, rfl, ?_, ?_⟩
  · intro g hg
    rw [NPC.Instantiate_government, hg]
    rfl
  · intro hg
    rw [NPC.Instantiate_government, hg]
    rfl

/-- C12 on the scenario of the specification: a template with `succeedIf = BOARD`
and no government gives a record with the player's government; and a template
with a government keeps it. -/
theorem C12_Instantiate_resolves_conditions_and_government_witness :
    (sampleTemplate.government = none ∧
      (NPC.Instantiate sampleWorld sampleTemplate [] none sampleRandom 0).1.government
        = some escort) ∧
    (NPC.Instantiate sampleWorld { sampleTemplate with government := some ⟨"Pirate"⟩ } [] none
        sampleRandom 0).1.government = some ⟨"Pirate"⟩ :=
  ⟨⟨rfl, (C12_Instantiate_resolves_conditions_and_government sampleWorld sampleTemplate [] none
      sampleRandom 0).2.2.2 rfl⟩,
    (C12_Instantiate_resolves_conditions_and_government sampleWorld
      { sampleTemplate with government := some ⟨"Pirate"⟩ } [] none sampleRandom 0).2.2.1
      ⟨"Pirate"⟩ rfl⟩

/-- C13: the system of the record `Instantiate` returns. If the template names a
system, it is that system. Otherwise, if the filter is not empty and the list of
the registered systems with a non-empty name that the filter matches against the
origin is not empty, it is the element of that list at the index `Random::Int`
returns, which is below the length of the list. Otherwise it is the origin,
whatever the random source. -/
theorem C13_Instantiate_resolves_the_system (w : World) (template : NPC) (subs : Subs)
    (origin : Option System) (rnd : Random) (heap : Nat) :
    (∀ s, template.system = some s →
        (NPC.Instantiate w template subs origin rnd heap).1.system = some s) ∧
      (template.system = none → template.location.IsEmpty = false →
        w.Systems.filter (fun it => !it.name.isEmpty && template.location.Matches it origin) ≠ [] →
        rnd.Int (w.Systems.filter
            (fun it => !it.name.isEmpty && template.location.Matches it origin)).length
          < (w.Systems.filter
            (fun it => !it.name.isEmpty && template.location.Matches it origin)).length ∧
        (NPC.Instantiate w template subs origin rnd heap).1.system =
          (w.Systems.filter
            (fun it => !it.name.isEmpty && template.location.Matches it origin)).get?
            (rnd.Int (w.Systems.filter
              (fun it => !it.name.isEmpty && template.location.Matches it origin)).length) ∧
        ∃ s ∈ w.Systems.filter
            (fun it => !it.name.isEmpty && template.location.Matches it origin),
          (NPC.Instantiate w template subs origin rnd heap).1.system = some s) ∧
      (template.system = none →
        (template.location.IsEmpty = true ∨
          w.Systems.filter
            (fun it => !it.name.isEmpty && template.location.Matches it origin) = []) →
        ∀ rnd2 : Random, (NPC.Instantiate w template subs origin rnd2 heap).1.system = origin) := by
  have hsys : ∀ r : Random, (NPC.Instantiate w template subs origin r heap).1.system =
      NPC.pickSystem w template origin r := fun _ => rfl
  refine ⟨?_, ?_, ?_⟩
  · intro s hs
    rw [hsys]
    simp [NPC.pickSystem, hs]
  · intro hs hloc hne
    have hlen : 0 < (w.Systems.filter
        (fun it => !it.name.isEmpty && template.location.Matches it origin)).length :=
      List.length_pos.mpr hne
    have hlt := Nat.mod_lt rnd.raw hlen
    have hpick : NPC.pickSystem w template origin rnd =
        (w.Systems.filter
          (fun it => !it.name.isEmpty && template.location.Matches it origin)).get?
          (rnd.Int (w.Systems.filter
            (fun it => !it.name.isEmpty && template.location.Matches it origin)).length) := by
      unfold NPC.pickSystem
      simp only [hs, hloc, Option.isNone_none, Bool.not_false, and_self, if_true]
      have hemp : (!(w.Systems.filter
          (fun it => !it.name.isEmpty && template.location.Matches it origin)).isEmpty) = true := by
        simpa [List.isEmpty_iff] using hne
      rw [if_pos hemp]
      have hget := List.get?_eq_get hlt
      unfold Random.Int
      rw [hget]
      rfl
    refine ⟨hlt, by rw [hsys, hpick], ?_⟩
    refine ⟨(w.Systems.filter
        (fun it => !it.name.isEmpty && template.location.Matches it origin)).get ⟨_, hlt⟩,
      List.get_mem _ _ _, ?_⟩
    rw [hsys, hpick]
    exact List.get?_eq_get hlt
  · intro hs hor rnd2
    rw [hsys]
    unfold NPC.pickSystem
    rcases hor with hloc | hnil
    · simp [hs, hloc]
    · simp [hs, hnil]

/-- C13 in the sample galaxy: a named system is kept; the filter "not Sol"
matches Vega and Altair and the draw 3 picks the second of them; a filter that
matches nothing, or no filter at all, gives the origin. -/
theorem C13_Instantiate_resolves_the_system_witness :
    (NPC.Instantiate sampleGalaxy { filterTemplate with system := some ⟨"Sol", "Sol"⟩ } []
        (some ⟨"Vega", "Vega"⟩) sampleRandom 0).1.system = some ⟨"Sol", "Sol"⟩ ∧
      (NPC.Instantiate sampleGalaxy filterTemplate [] (some ⟨"Sol", "Sol"⟩)
        { sampleRandom with raw := 3 } 0).1.system = some ⟨"Altair", "Altair"⟩ ∧
      (NPC.Instantiate sampleGalaxy nowhereTemplate [] (some ⟨"Sol", "Sol"⟩)
        { sampleRandom with raw := 3 } 0).1.system = some ⟨"Sol", "Sol"⟩ ∧
      (NPC.Instantiate sampleGalaxy sampleTemplate [] (some ⟨"Vega", "Vega"⟩)
        { sampleRandom with raw := 3 } 0).1.system = some ⟨"Vega", "Vega"⟩ :=
  ⟨(C13_Instantiate_resolves_the_system sampleGalaxy
      { filterTemplate with system := some ⟨"Sol", "Sol"⟩ } [] (some ⟨"Vega", "Vega"⟩)
      sampleRandom 0).1 ⟨"Sol", "Sol"⟩ rfl,
    ((C13_Instantiate_resolves_the_system sampleGalaxy filterTemplate [] (some ⟨"Sol", "Sol"⟩)
      { sampleRandom with raw := 3 } 0).2.1 rfl rfl (by decide)).2.1,
    (C13_Instantiate_resolves_the_system sampleGalaxy nowhereTemplate [] (some ⟨"Sol", "Sol"⟩)
      sampleRandom 0).2.2 rfl (Or.inr (by decide)) { sampleRandom with raw := 3 },
    (C13_Instantiate_resolves_the_system sampleGalaxy sampleTemplate [] (some ⟨"Vega", "Vega"⟩)
      sampleRandom 0).2.2 rfl (Or.inl rfl) { sampleRandom with raw := 3 }⟩

/-! ## Save and Load -/

theorem readDecimal_writeDecimal (n : Nat) : readDecimal (writeDecimal n) = n := by
  unfold writeDecimal readDecimal
  by_cases h0 : n = 0
  · subst h0
    decide
  · rw [if_neg h0]
    rw [← List.map_reverse, List.reverse_reverse, List.map_map]
    have hmap : (Nat.digits 10 n).map ((fun c : Char => c.toNat - 48) ∘ Nat.digitChar)
        = Nat.digits 10 n := by
      conv_rhs => rw [← List.map_id (Nat.digits 10 n)]
      apply List.map_congr_left
      intro d hd
      have hlt : d < 10 := Nat.digits_lt_base (by norm_num) hd
      interval_cases d <;> rfl
    rw [hmap]
    exact Nat.ofDigits_digits 10 n

namespace NPC

theorem LoadChild_succeed (w : World) (st : NPC × Nat) (tok : String) :
    LoadChild w st (DataNode.mk ["succeed", tok] [])
      = ({ st.1 with succeedIf := w.Value tok }, st.2) := rfl

theorem LoadChild_fail (w : World) (st : NPC × Nat) (tok : String) :
    LoadChild w st (DataNode.mk ["fail", tok] [])
      = ({ st.1 with failIf := w.Value tok }, st.2) := rfl

theorem Load_SaveConditions (w : World) (out : Output) (self : NPC) (heap : Nat)
    (hs : w.Value (out.Number self.succeedIf) = self.succeedIf)
    (hf : w.Value (out.Number self.failIf) = self.failIf) :
    (Load w {} (DataNode.mk ["npc"] (self.SaveConditions out)) heap).succeedIf = self.succeedIf ∧
      (Load w {} (DataNode.mk ["npc"] (self.SaveConditions out)) heap).failIf = self.failIf := by
  unfold Load SaveConditions
  by_cases h1 : self.succeedIf = 0 <;> by_cases h2 : self.failIf = 0
  · simp [h1, h2, DataNode.tokens, DataNode.children]
  · simp [h1, h2, DataNode.tokens, DataNode.children, LoadChild_fail, hf]
  · simp [h1, h2, DataNode.tokens, DataNode.children, LoadChild_succeed, hs]
  · simp [h1, h2, DataNode.tokens, DataNode.children, LoadChild_succeed, LoadChild_fail, hs, hf]

end NPC

/-- C15: for every record, loading into a fresh NPC the "succeed" and "fail" lines
`Save` writes gives back `succeedIf` and `failIf`, a mask of zero included, for
which no line is written; `DataNode::Value` is taken to read back the integer
`DataWriter::Write` wrote. -/
theorem C15_conditions_survive_Save_and_Load (w : World) (out : Output) (r : NPC) (heap : Nat)
    (hvalue : ∀ n, w.Value (out.Number n) = n) :
    (NPC.Load w {} (DataNode.mk ["npc"] (r.SaveConditions out)) heap).succeedIf = r.succeedIf ∧
      (NPC.Load w {} (DataNode.mk ["npc"] (r.SaveConditions out)) heap).failIf = r.failIf :=
  NPC.Load_SaveConditions w out r heap (hvalue _) (hvalue _)

/-- C15 with decimal number tokens, at a record that fails on DESTROY and has no
condition to succeed: only the "fail" line is written. -/
theorem C15_conditions_survive_Save_and_Load_witness :
    (∀ n, decimalWorld.Value (decimalOutput.Number n) = n) ∧
      ({ sampleRecord with succeedIf := 0 } : NPC).SaveConditions decimalOutput
        = [DataNode.mk ["fail", decimalOutput.Number 128] []] ∧
      (NPC.Load decimalWorld {}
        (DataNode.mk ["npc"] (({ sampleRecord with succeedIf := 0 } : NPC).SaveConditions
          decimalOutput)) 0).succeedIf = 0 ∧
      (NPC.Load decimalWorld {}
        (DataNode.mk ["npc"] (({ sampleRecord with succeedIf := 0 } : NPC).SaveConditions
          decimalOutput)) 0).failIf = 128 :=
  ⟨readDecimal_writeDecimal, rfl,
    C15_conditions_survive_Save_and_Load decimalWorld decimalOutput
      { sampleRecord with succeedIf := 0 } 0 readDecimal_writeDecimal⟩

/-! ## The progress map -/

namespace StdMap

theorem any_set_of_find_none (m : StdMap Nat Nat) (k v : Nat) (p : Nat × Nat → Bool)
    (h : find m k = none) : (set m k v).any p = (p (k, v) || m.any p) := by
  induction m with
  | nil => simp [set]
  | cons e rest ih =>
    obtain ⟨k0, v0⟩ := e
    by_cases h1 : k0 = k
    · simp [find, h1] at h
    · simp only [find, h1, if_false] at h
      by_cases h2 : k < k0
      · simp [set, h1, h2]
      · simp only [set, h1, h2, if_false, List.any_cons, ih h]
        cases p (k0, v0) <;> cases p (k, v) <;> simp

end StdMap

namespace NPC

theorem KeysTracked_Do (self : NPC) (event : ShipEvent) (ui : Bool) (h : self.KeysTracked) :
    (self.Do event ui).1.KeysTracked := by
  unfold KeysTracked at h ⊢
  rw [Do_actions, Do_ships]
  by_cases hm : event.target ∈ self.ships.map Ship.ptr
  · rw [record_of_mem _ _ _ hm]
    intro k hk
    rw [StdMap.mem_keys_set] at hk
    rcases hk with hk | hk
    · rw [hk]
      exact hm
    · exact h k hk
  · rw [record_of_not_mem _ _ _ hm]
    exact h

theorem HasFailed_set_zero (self : NPC) (a : Nat) (h : StdMap.find self.actions a = none) :
    ({ self with actions := StdMap.set self.actions a 0 } : NPC).HasFailed = self.HasFailed := by
  unfold HasFailed
  simp only
  rw [StdMap.any_set_of_find_none _ _ _ _ h]
  simp

theorem HasSucceeded_set_zero (self : NPC) (a : Nat) (h : StdMap.find self.actions a = none) :
    ({ self with actions := StdMap.set self.actions a 0 } : NPC).HasSucceeded
      = self.HasSucceeded := by
  unfold HasSucceeded
  rw [HasFailed_set_zero self a h]
  simp only
  by_cases hf : self.HasFailed = true
  · rw [if_pos hf, if_pos hf]
  · rw [if_neg hf, if_neg hf]
    by_cases hs : self.succeedIf = 0
    · rw [if_pos hs, if_pos hs]
    · rw [if_neg hs, if_neg hs]
      congr 1
      funext ship
      by_cases hp : ship.ptr = a
      · rw [hp, StdMap.find_set_self, h]
        simp only [Nat.zero_and, Bool.not_eq_false', bne_iff_ne, ne_eq, Bool.not_not]
        simpa using fun h0 : 0 = self.succeedIf => hs h0.symm
      · rw [StdMap.find_set_ne _ _ _ _ hp]

theorem SaveShip_set_zero (out : Output) (self : NPC) (a : Nat)
    (h : StdMap.find self.actions a = none) (ship : Ship) :
    ({ self with actions := StdMap.set self.actions a 0 } : NPC).SaveShip out ship
      = self.SaveShip out ship := by
  unfold SaveShip
  simp only
  by_cases hp : ship.ptr = a
  · rw [hp, StdMap.find_set_self, h]
    simp
  · rw [StdMap.find_set_ne _ _ _ _ hp]

theorem Save_set_zero (out : Output) (self : NPC) (a : Nat)
    (h : StdMap.find self.actions a = none) :
    ({ self with actions := StdMap.set self.actions a 0 } : NPC).Save out = self.Save out := by
  unfold Save
  have hships : List.map (({ self with actions := StdMap.set self.actions a 0 } : NPC).SaveShip out)
      self.ships = List.map (self.SaveShip out) self.ships :=
    List.map_congr_left (fun ship _ => SaveShip_set_zero out self a h ship)
  simp only [hships]
  rfl

end NPC

/-- C19: every key of the progress map is one of the record's ships. The record
`Instantiate` returns has an empty progress map, whatever progress the template
holds; the record `Load` makes of a fresh NPC has the property; and every `Do`
event preserves it. -/
theorem C19_progress_keys_are_actors (w : World) (template : NPC) (subs : Subs)
    (origin : Option System) (rnd : Random) (heap : Nat) (node : DataNode) :
    ((NPC.Instantiate w template subs origin rnd heap).1.actions = [] ∧
        (NPC.Instantiate w template subs origin rnd heap).1.KeysTracked) ∧
      (NPC.Load w {} node heap).KeysTracked ∧
      ∀ (r : NPC) (event : ShipEvent) (ui : Bool), r.KeysTracked →
        (r.Do event ui).1.KeysTracked :=
  ⟨⟨NPC.Instantiate_actions w template subs origin rnd heap,
      (NPC.WellFormed_Instantiate w template subs origin rnd heap).2⟩,
    (NPC.WellFormed_Load w {} node heap NPC.WellFormed_default).2,
    fun r event ui h => NPC.KeysTracked_Do r event ui h⟩

/-- C19 at the sample record, taken as a template with progress and as a record
that receives a DISABLE event for its first actor. -/
theorem C19_progress_keys_are_actors_witness :
    sampleRecord.actions = [(2, 16)] ∧
      (NPC.Instantiate sampleWorld sampleRecord [] none sampleRandom 0).1.actions = [] ∧
      sampleRecord.KeysTracked ∧
      (sampleRecord.Do ⟨1, 16⟩ true).1.actions = [(1, 16), (2, 16)] ∧
      (sampleRecord.Do ⟨1, 16⟩ true).1.KeysTracked :=
  ⟨rfl,
    (C19_progress_keys_are_actors sampleWorld sampleRecord [] none sampleRandom 0 emptyNode).1.1,
    by unfold NPC.KeysTracked; decide, by decide,
    (C19_progress_keys_are_actors sampleWorld sampleRecord [] none sampleRandom 0 emptyNode).2.2
      sampleRecord ⟨1, 16⟩ true (by unfold NPC.KeysTracked; decide)⟩

/-! ## Load: the shorthands of the "npc" line -/

namespace NPC

theorem LoadToken_failIf (k : EventKinds) (self : NPC) (tok : String) :
    (LoadToken k self tok).failIf = self.failIf ||| shorthand [tok] "save" k.DESTROY := by
  unfold LoadToken shorthand
  simp only [List.mem_singleton]
  by_cases h : tok = "save"
  · subst h
    simp
  · have h2 : ¬ "save" = tok := fun h3 => h h3.symm
    simp only [h, h2, if_false, Nat.or_zero]
    split_ifs <;> rfl

theorem LoadToken_succeedIf (k : EventKinds) (self : NPC) (tok : String) :
    (LoadToken k self tok).succeedIf =
      self.succeedIf ||| (shorthand [tok] "kill" k.DESTROY ||| shorthand [tok] "board" k.BOARD
        ||| shorthand [tok] "disable" k.DISABLE ||| shorthand [tok] "scan cargo" k.SCAN_CARGO
        ||| shorthand [tok] "scan outfits" k.SCAN_OUTFITS) := by
  unfold LoadToken shorthand
  simp only [List.mem_singleton]
  by_cases h1 : tok = "kill"
  · subst h1; simp
  by_cases h2 : tok = "board"
  · subst h2; simp
  by_cases h3 : tok = "disable"
  · subst h3; simp
  by_cases h4 : tok = "scan cargo"
  · subst h4; simp
  by_cases h5 : tok = "scan outfits"
  · subst h5; simp
  have g1 : ¬ "kill" = tok := fun h => h1 h.symm
  have g2 : ¬ "board" = tok := fun h => h2 h.symm
  have g3 : ¬ "disable" = tok := fun h => h3 h.symm
  have g4 : ¬ "scan cargo" = tok := fun h => h4 h.symm
  have g5 : ¬ "scan outfits" = tok := fun h => h5 h.symm
  simp only [h1, h2, h3, h4, h5, g1, g2, g3, g4, g5, if_false, Nat.or_zero]
  split_ifs <;> rfl

theorem shorthand_cons (tok : String) (rest : List String) (name : String) (bit : Nat) :
    shorthand [tok] name bit ||| shorthand rest name bit = shorthand (tok :: rest) name bit := by
  unfold shorthand
  simp only [List.mem_singleton, List.mem_cons]
  by_cases h1 : name = tok
  · subst h1
    by_cases h2 : name ∈ rest <;> simp [h2]
  · by_cases h2 : name ∈ rest <;> simp [h1, h2]

theorem foldl_LoadToken_failIf (k : EventKinds) (toks : List String) (self : NPC) :
    (toks.foldl (LoadToken k) self).failIf = self.failIf ||| shorthand toks "save" k.DESTROY := by
  induction toks generalizing self with
  | nil => simp [shorthand]
  | cons tok rest ih =>
    rw [List.foldl_cons, ih, LoadToken_failIf, Nat.or_assoc,
      shorthand_cons tok rest "save" k.DESTROY]

theorem foldl_LoadToken_succeedIf (k : EventKinds) (toks : List String) (self : NPC) :
    (toks.foldl (LoadToken k) self).succeedIf =
      self.succeedIf ||| (shorthand toks "kill" k.DESTROY ||| shorthand toks "board" k.BOARD
        ||| shorthand toks "disable" k.DISABLE ||| shorthand toks "scan cargo" k.SCAN_CARGO
        ||| shorthand toks "scan outfits" k.SCAN_OUTFITS) := by
  induction toks generalizing self with
  | nil => simp [shorthand]
  | cons tok rest ih =>
    rw [List.foldl_cons, ih, LoadToken_succeedIf]
    rw [← shorthand_cons tok rest "kill", ← shorthand_cons tok rest "board",
      ← shorthand_cons tok rest "disable", ← shorthand_cons tok rest "scan cargo",
      ← shorthand_cons tok rest "scan outfits"]
    ac_rfl

theorem LoadChild_conditions (w : World) (st : NPC × Nat) (child : DataNode)
    (hs : child.Token 0 ≠ "succeed") (hf : child.Token 0 ≠ "fail") :
    (LoadChild w st child).1.succeedIf = st.1.succeedIf ∧
      (LoadChild w st child).1.failIf = st.1.failIf := by
  unfold LoadChild
  simp only
  by_cases c1 : (decide (child.Token 0 = "enter") || decide (child.Token 0 = "remain")
      || decide (child.Token 0 = "wait")) = true
  · rw [if_pos c1]
    by_cases c2 : child.Size ≥ 2
    · rw [if_pos c2]; exact ⟨rfl, rfl⟩
    · rw [if_neg c2]; exact ⟨rfl, rfl⟩
  rw [if_neg c1]
  rw [if_neg (fun h : child.Token 0 = "succeed" ∧ child.Size ≥ 2 => hs h.1)]
  rw [if_neg (fun h : child.Token 0 = "fail" ∧ child.Size ≥ 2 => hf h.1)]
  by_cases c5 : child.Token 0 = "government" ∧ child.Size ≥ 2
  · rw [if_pos c5]; exact ⟨rfl, rfl⟩
  rw [if_neg c5]
  by_cases c6 : child.Token 0 = "dialog"
  · rw [if_pos c6]; exact ⟨rfl, rfl⟩
  rw [if_neg c6]
  by_cases c7 : child.Token 0 = "conversation" ∧ child.HasChildren = true
  · rw [if_pos c7]; exact ⟨rfl, rfl⟩
  rw [if_neg c7]
  by_cases c8 : child.Token 0 = "conversation" ∧ child.Size > 1
  · rw [if_pos c8]; exact ⟨rfl, rfl⟩
  rw [if_neg c8]
  by_cases c9 : child.Token 0 = "ship"
  · rw [if_pos c9]
    by_cases c10 : child.HasChildren = true
    · rw [if_pos c10]; exact ⟨rfl, rfl⟩
    · rw [if_neg c10]
      by_cases c11 : child.Size ≥ 2
      · rw [if_pos c11]; exact ⟨rfl, rfl⟩
      · rw [if_neg c11]; exact ⟨rfl, rfl⟩
  rw [if_neg c9]
  by_cases c12 : child.Token 0 = "fleet"
  · rw [if_pos c12]
    by_cases c13 : child.HasChildren = true
    · rw [if_pos c13]; exact ⟨rfl, rfl⟩
    · rw [if_neg c13]
      by_cases c14 : child.Size ≥ 2
      · rw [if_pos c14]; exact ⟨rfl, rfl⟩
      · rw [if_neg c14]; exact ⟨rfl, rfl⟩
  rw [if_neg c12]
  exact ⟨rfl, rfl⟩

theorem foldl_LoadChild_conditions (w : World) (children : List DataNode) (st : NPC × Nat)
    (h : ∀ child ∈ children, child.Token 0 ≠ "succeed" ∧ child.Token 0 ≠ "fail") :
    (children.foldl (LoadChild w) st).1.succeedIf = st.1.succeedIf ∧
      (children.foldl (LoadChild w) st).1.failIf = st.1.failIf := by
  induction children generalizing st with
  | nil => exact ⟨rfl, rfl⟩
  | cons child rest ih =>
    rw [List.foldl_cons]
    have hrest := ih (LoadChild w st child) (fun c hc => h c (List.mem_cons_of_mem _ hc))
    have hchild := h child (List.mem_cons_self _ _)
    have hstep := LoadChild_conditions w st child hchild.1 hchild.2
    exact ⟨hrest.1.trans hstep.1, hrest.2.trans hstep.2⟩

theorem Load_shorthands (w : World) (node : DataNode) (heap : Nat)
    (h : ∀ child ∈ node.children, child.Token 0 ≠ "succeed" ∧ child.Token 0 ≠ "fail") :
    (Load w {} node heap).failIf = shorthand (node.tokens.drop 1) "save" w.kinds.DESTROY ∧
      (Load w {} node heap).succeedIf =
        (shorthand (node.tokens.drop 1) "kill" w.kinds.DESTROY
          ||| shorthand (node.tokens.drop 1) "board" w.kinds.BOARD
          ||| shorthand (node.tokens.drop 1) "disable" w.kinds.DISABLE
          ||| shorthand (node.tokens.drop 1) "scan cargo" w.kinds.SCAN_CARGO
          ||| shorthand (node.tokens.drop 1) "scan outfits" w.kinds.SCAN_OUTFITS) := by
  have hfold := foldl_LoadChild_conditions w node.children
    ((node.tokens.drop 1).foldl (LoadToken w.kinds) {}, heap) h
  have hf := foldl_LoadToken_failIf w.kinds (node.tokens.drop 1) {}
  have hs := foldl_LoadToken_succeedIf w.kinds (node.tokens.drop 1) {}
  unfold Load
  simp only
  constructor
  · rw [hfold.2, hf]
    exact Nat.zero_or _
  · rw [hfold.1, hs]
    exact Nat.zero_or _

end NPC

/-- C16: the shorthands of `Load`. For every "npc" node without a "succeed" or "fail"
child, loading it into a fresh NPC gives `failIf == DESTROY` if the token "save"
occurs after the tag and 0 otherwise, and `succeedIf` the OR of DESTROY, BOARD,
DISABLE, SCAN_CARGO, SCAN_OUTFITS for those of the tokens "kill", "board", "disable",
"scan cargo", "scan outfits" that occur after the tag. So two such nodes in which
the same of these six tokens occur give the same masks, whatever their other
tokens, the order and the repetitions. -/
theorem C16_Load_reads_the_shorthands (w : World) (node : DataNode) (heap : Nat)
    (h : ∀ child ∈ node.children, child.Token 0 ≠ "succeed" ∧ child.Token 0 ≠ "fail") :
    (NPC.Load w {} node heap).failIf
        = NPC.shorthand (node.tokens.drop 1) "save" w.kinds.DESTROY ∧
      (NPC.Load w {} node heap).succeedIf =
        (NPC.shorthand (node.tokens.drop 1) "kill" w.kinds.DESTROY
          ||| NPC.shorthand (node.tokens.drop 1) "board" w.kinds.BOARD
          ||| NPC.shorthand (node.tokens.drop 1) "disable" w.kinds.DISABLE
          ||| NPC.shorthand (node.tokens.drop 1) "scan cargo" w.kinds.SCAN_CARGO
          ||| NPC.shorthand (node.tokens.drop 1) "scan outfits" w.kinds.SCAN_OUTFITS) ∧
      ∀ (node2 : DataNode) (heap2 : Nat),
        (∀ child ∈ node2.children, child.Token 0 ≠ "succeed" ∧ child.Token 0 ≠ "fail") →
        (∀ name ∈ ["save", "kill", "board", "disable", "scan cargo", "scan outfits"],
          name ∈ node2.tokens.drop 1 ↔ name ∈ node.tokens.drop 1) →
        (NPC.Load w {} node2 heap2).failIf = (NPC.Load w {} node heap).failIf ∧
          (NPC.Load w {} node2 heap2).succeedIf = (NPC.Load w {} node heap).succeedIf := by
  have h1 := NPC.Load_shorthands w node heap h
  refine ⟨h1.1, h1.2, ?_⟩
  intro node2 heap2 h2 hsame
  have h3 := NPC.Load_shorthands w node2 heap2 h2
  have hflag : ∀ name ∈ ["save", "kill", "board", "disable", "scan cargo", "scan outfits"],
      ∀ bit, NPC.shorthand (node2.tokens.drop 1) name bit
        = NPC.shorthand (node.tokens.drop 1) name bit := by
    intro name hname bit
    unfold NPC.shorthand
    by_cases hm : name ∈ node.tokens.drop 1
    · rw [if_pos hm, if_pos ((hsame name hname).mpr hm)]
    · rw [if_neg hm, if_neg (fun hm2 => hm ((hsame name hname).mp hm2))]
  rw [h1.1, h1.2, h3.1, h3.2]
  rw [hflag "save" (by simp), hflag "kill" (by simp), hflag "board" (by simp),
    hflag "disable" (by simp), hflag "scan cargo" (by simp), hflag "scan outfits" (by simp)]
  exact ⟨rfl, rfl⟩

/-- C16 at the sample node "npc kill escort save kill 'scan cargo'": fail on
DESTROY, succeed on DESTROY and SCAN_CARGO; and the line "npc 'scan cargo' save
kill" gives the same. -/
theorem C16_Load_reads_the_shorthands_witness :
    (∀ child ∈ shorthandNode.children, child.Token 0 ≠ "succeed" ∧ child.Token 0 ≠ "fail") ∧
      (NPC.Load sampleWorld {} shorthandNode 0).failIf = 128 ∧
      (NPC.Load sampleWorld {} shorthandNode 0).succeedIf = 128 ||| 2 ∧
      (NPC.Load sampleWorld {} (DataNode.mk ["npc", "scan cargo", "save", "kill"] []) 5).failIf
        = (NPC.Load sampleWorld {} shorthandNode 0).failIf ∧
      (NPC.Load sampleWorld {} (DataNode.mk ["npc", "scan cargo", "save", "kill"] []) 5).succeedIf
        = (NPC.Load sampleWorld {} shorthandNode 0).succeedIf :=
  ⟨by decide,
    (C16_Load_reads_the_shorthands sampleWorld shorthandNode 0 (by decide)).1,
    (C16_Load_reads_the_shorthands sampleWorld shorthandNode 0 (by decide)).2.1,
    (C16_Load_reads_the_shorthands sampleWorld shorthandNode 0 (by decide)).2.2
      (DataNode.mk ["npc", "scan cargo", "save", "kill"] []) 5 (by decide) (by decide)⟩

/-! ## Load and Instantiate: the ship lines -/

namespace NPC

theorem LoadChild_of_not_ship (w : World) (st : NPC × Nat) (child : DataNode)
    (hns : child.Token 0 ≠ "ship") :
    (LoadChild w st child).1.ships = st.1.ships ∧
      (LoadChild w st child).1.stockShips = st.1.stockShips ∧
      (LoadChild w st child).1.shipNames = st.1.shipNames := by
  unfold LoadChild
  simp only
  by_cases c1 : (decide (child.Token 0 = "enter") || decide (child.Token 0 = "remain")
      || decide (child.Token 0 = "wait")) = true
  · rw [if_pos c1]
    by_cases c2 : child.Size ≥ 2
    · rw [if_pos c2]; exact ⟨rfl, rfl, rfl⟩
    · rw [if_neg c2]; exact ⟨rfl, rfl, rfl⟩
  rw [if_neg c1]
  by_cases c3 : child.Token 0 = "succeed" ∧ child.Size ≥ 2
  · rw [if_pos c3]; exact ⟨rfl, rfl, rfl⟩
  rw [if_neg c3]
  by_cases c4 : child.Token 0 = "fail" ∧ child.Size ≥ 2
  · rw [if_pos c4]; exact ⟨rfl, rfl, rfl⟩
  rw [if_neg c4]
  by_cases c5 : child.Token 0 = "government" ∧ child.Size ≥ 2
  · rw [if_pos c5]; exact ⟨rfl, rfl, rfl⟩
  rw [if_neg c5]
  by_cases c6 : child.Token 0 = "dialog"
  · rw [if_pos c6]; exact ⟨rfl, rfl, rfl⟩
  rw [if_neg c6]
  by_cases c7 : child.Token 0 = "conversation" ∧ child.HasChildren = true
  · rw [if_pos c7]; exact ⟨rfl, rfl, rfl⟩
  rw [if_neg c7]
  by_cases c8 : child.Token 0 = "conversation" ∧ child.Size > 1
  · rw [if_pos c8]; exact ⟨rfl, rfl, rfl⟩
  rw [if_neg c8]
  rw [if_neg hns]
  by_cases c12 : child.Token 0 = "fleet"
  · rw [if_pos c12]
    by_cases c13 : child.HasChildren = true
    · rw [if_pos c13]; exact ⟨rfl, rfl, rfl⟩
    · rw [if_neg c13]
      by_cases c14 : child.Size ≥ 2
      · rw [if_pos c14]; exact ⟨rfl, rfl, rfl⟩
      · rw [if_neg c14]; exact ⟨rfl, rfl, rfl⟩
  rw [if_neg c12]
  exact ⟨rfl, rfl, rfl⟩

theorem LoadChild_of_ship (w : World) (st : NPC × Nat) (child : DataNode)
    (hship : child.Token 0 = "ship") :
    LoadChild w st child =
      if child.HasChildren = true then
        ({ st.1 with
            ships := st.1.ships ++ [⟨st.2, w.LoadShip child⟩]
            actions := child.children.foldl (LoadActions w st.2) st.1.actions }, st.2 + 1)
      else if child.Size ≥ 2 then
        ({ st.1 with
            stockShips := st.1.stockShips ++ [w.Ships (child.Token 1)]
            shipNames := st.1.shipNames
              ++ [child.Token (1 + (if child.Size > 2 then 1 else 0))] }, st.2)
      else st := by
  unfold LoadChild
  simp only
  have c1 : ¬ (decide (child.Token 0 = "enter") || decide (child.Token 0 = "remain")
      || decide (child.Token 0 = "wait")) = true := by
    rw [hship]
    decide
  have c3 : ¬ (child.Token 0 = "succeed" ∧ child.Size ≥ 2) := by
    rw [hship]
    exact fun h => absurd h.1 (by decide)
  have c4 : ¬ (child.Token 0 = "fail" ∧ child.Size ≥ 2) := by
    rw [hship]
    exact fun h => absurd h.1 (by decide)
  have c5 : ¬ (child.Token 0 = "government" ∧ child.Size ≥ 2) := by
    rw [hship]
    exact fun h => absurd h.1 (by decide)
  have c6 : ¬ child.Token 0 = "dialog" := by
    rw [hship]
    decide
  have c7 : ¬ (child.Token 0 = "conversation" ∧ child.HasChildren = true) := by
    rw [hship]
    exact fun h => absurd h.1 (by decide)
  have c8 : ¬ (child.Token 0 = "conversation" ∧ child.Size > 1) := by
    rw [hship]
    exact fun h => absurd h.1 (by decide)
  rw [if_neg c1, if_neg c3, if_neg c4, if_neg c5, if_neg c6, if_neg c7, if_neg c8, if_pos hship]

theorem LoadChild_shipLines (w : World) (st : NPC × Nat) (child : DataNode) :
    (LoadChild w st child).1.stockShips =
        st.1.stockShips ++ (if child.isStockShip = true then [w.Ships (child.Token 1)] else []) ∧
      (LoadChild w st child).1.shipNames =
        st.1.shipNames ++ (if child.isStockShip = true then [child.stockName] else []) ∧
      (LoadChild w st child).1.ships.length =
        st.1.ships.length + (if child.isInlineShip = true then 1 else 0) := by
  by_cases hship : child.Token 0 = "ship"
  · rw [LoadChild_of_ship w st child hship]
    by_cases hc : child.HasChildren = true
    · have e1 : child.isStockShip = false := by simp [DataNode.isStockShip, hc]
      have e2 : child.isInlineShip = true := by simp [DataNode.isInlineShip, hship, hc]
      rw [if_pos hc, e1, e2]
      simp
    · have hc2 : child.HasChildren = false := by simpa using hc
      rw [if_neg hc]
      have e2 : child.isInlineShip = false := by simp [DataNode.isInlineShip, hc2]
      by_cases hsz : child.Size ≥ 2
      · have e1 : child.isStockShip = true := by simp [DataNode.isStockShip, hship, hc2, hsz]
        rw [if_pos hsz, e1, e2]
        refine ⟨rfl, ?_, rfl⟩
        simp only [if_true, DataNode.stockName]
        by_cases h3 : child.Size > 2
        · simp [h3]
        · simp [h3]
      · have e1 : child.isStockShip = false := by simp [DataNode.isStockShip, hsz]
        rw [if_neg hsz, e1, e2]
        simp
  · have e1 : child.isStockShip = false := by simp [DataNode.isStockShip, hship]
    have e2 : child.isInlineShip = false := by simp [DataNode.isInlineShip, hship]
    obtain ⟨h1, h2, h3⟩ := LoadChild_of_not_ship w st child hship
    rw [e1, e2, h1, h2, h3]
    simp

theorem foldl_LoadChild_shipLines (w : World) (children : List DataNode) (st : NPC × Nat) :
    (children.foldl (LoadChild w) st).1.stockShips =
        st.1.stockShips
          ++ (children.filter DataNode.isStockShip).map (fun line => w.Ships (line.Token 1)) ∧
      (children.foldl (LoadChild w) st).1.shipNames =
        st.1.shipNames ++ (children.filter DataNode.isStockShip).map DataNode.stockName ∧
      (children.foldl (LoadChild w) st).1.ships.length =
        st.1.ships.length + (children.filter DataNode.isInlineShip).length := by
  induction children generalizing st with
  | nil => simp
  | cons child rest ih =>
    rw [List.foldl_cons]
    obtain ⟨h1, h2, h3⟩ := ih (LoadChild w st child)
    obtain ⟨g1, g2, g3⟩ := LoadChild_shipLines w st child
    rw [h1, h2, h3, g1, g2, g3]
    refine ⟨?_, ?_, ?_⟩
    · cases hst : child.isStockShip <;> simp [List.filter_cons, hst]
    · cases hst : child.isStockShip <;> simp [List.filter_cons, hst]
    · cases hinl : child.isInlineShip <;> simp [List.filter_cons, hinl]
      omega

theorem LoadToken_stock (k : EventKinds) (self : NPC) (tok : String) :
    (LoadToken k self tok).stockShips = self.stockShips ∧
      (LoadToken k self tok).shipNames = self.shipNames := by
  unfold LoadToken
  simp only
  split_ifs <;> exact ⟨rfl, rfl⟩

theorem foldl_LoadToken_stock (k : EventKinds) (toks : List String) (self : NPC) :
    (toks.foldl (LoadToken k) self).stockShips = self.stockShips ∧
      (toks.foldl (LoadToken k) self).shipNames = self.shipNames := by
  induction toks generalizing self with
  | nil => exact ⟨rfl, rfl⟩
  | cons tok rest ih =>
    rw [List.foldl_cons]
    obtain ⟨h1, h2⟩ := ih (LoadToken k self tok)
    obtain ⟨g1, g2⟩ := LoadToken_stock k self tok
    exact ⟨h1.trans g1, h2.trans g2⟩

/-- What `Load` makes of the ship lines of a node, for a fresh NPC. -/
theorem Load_shipLines (w : World) (node : DataNode) (heap : Nat) :
    (Load w {} node heap).stockShips =
        (node.children.filter DataNode.isStockShip).map (fun line => w.Ships (line.Token 1)) ∧
      (Load w {} node heap).shipNames =
        (node.children.filter DataNode.isStockShip).map DataNode.stockName ∧
      (Load w {} node heap).ships.length = (node.children.filter DataNode.isInlineShip).length := by
  obtain ⟨h1, h2, h3⟩ := foldl_LoadChild_shipLines w node.children
    ((node.tokens.drop 1).foldl (LoadToken w.kinds) {}, heap)
  obtain ⟨g1, g2⟩ := foldl_LoadToken_stock w.kinds (node.tokens.drop 1) {}
  have g3 := foldl_LoadToken_ships w.kinds (node.tokens.drop 1) {}
  unfold Load
  simp only [List.length_map]
  rw [h1, h2, h3, g1, g2, g3]
  simp

end NPC

theorem allocShips_map_obj (heap : Nat) (objs : List ShipObj) :
    (allocShips heap objs).map Ship.obj = objs := by
  induction objs generalizing heap with
  | nil => rfl
  | cons o rest ih => simp [allocShips, ih]

theorem allocShips_length (heap : Nat) (objs : List ShipObj) :
    (allocShips heap objs).length = objs.length := by
  induction objs generalizing heap with
  | nil => rfl
  | cons o rest ih => simp [allocShips, ih]

namespace NPC

theorem placeShips_append (rnd : Random) (system : Option System) (i : Nat)
    (front back : List Ship) :
    placeShips rnd system i (front ++ back) =
      placeShips rnd system i front ++ placeShips rnd system (i + front.length) back := by
  induction front generalizing i with
  | nil => simp [placeShips]
  | cons ship rest ih =>
    have e : i + (ship :: rest).length = i + 1 + rest.length := by
      rw [List.length_cons]
      omega
    rw [List.cons_append, placeShips, placeShips, ih (i + 1), e]
    rfl

theorem placeShips_length (rnd : Random) (system : Option System) (i : Nat) (ships : List Ship) :
    (placeShips rnd system i ships).length = ships.length := by
  induction ships generalizing i with
  | nil => rfl
  | cons ship rest ih => simp [placeShips, ih]

/-- Placing a ship changes neither its name nor its maximum velocity. -/
theorem placeShips_keeps (rnd : Random) (system : Option System) (i : Nat) (ships : List Ship) :
    (placeShips rnd system i ships).map (fun ship => ship.obj.name)
        = ships.map (fun ship => ship.obj.name) ∧
      (placeShips rnd system i ships).map (fun ship => ship.obj.maxVelocity)
        = ships.map (fun ship => ship.obj.maxVelocity) := by
  induction ships generalizing i with
  | nil => exact ⟨rfl, rfl⟩
  | cons ship rest ih =>
    obtain ⟨h1, h2⟩ := ih (i + 1)
    simp only [placeShips, List.map_cons, h1, h2]
    exact ⟨rfl, rfl⟩

theorem placeFleets_append (system : Option System) (heap : Nat) (fleets : List Fleet)
    (ships : List Ship) :
    ∃ extra, placeFleets system heap fleets ships = ships ++ extra ∧
      (fleets = [] → extra = []) := by
  induction fleets generalizing ships with
  | nil => exact ⟨[], by simp [placeFleets], fun _ => rfl⟩
  | cons fleet rest ih =>
    obtain ⟨extra, h1, _⟩ := ih (fleet.Place system (heap + ships.length) ships)
    refine ⟨allocShips (heap + ships.length) (fleet.spawn system) ++ extra, ?_, ?_⟩
    · unfold placeFleets at h1 ⊢
      rw [List.foldl_cons, h1]
      simp [Fleet.Place]
    · intro h
      exact absurd h (List.cons_ne_nil _ _)

theorem zipWith_SetName (w : World) (lines : List DataNode) :
    List.zipWith (fun ship name => ShipObj.SetName ship name)
        (lines.map (fun line => w.Ships (line.Token 1))) (lines.map DataNode.stockName)
      = lines.map (fun line => (w.Ships (line.Token 1)).SetName line.stockName) := by
  induction lines with
  | nil => rfl
  | cons line rest ih => simp [ih]

/-- The ships of the record `Instantiate` returns: the placed copies of the inline
ships, the placed copies of the stock ships with their names, what the fleets
placed, each with the government loop applied. -/
theorem Instantiate_ships (w : World) (self : NPC) (subs : Subs) (origin : Option System)
    (rnd : Random) (heap : Nat) :
    ∃ fleetShips,
      (Instantiate w self subs origin rnd heap).1.ships =
        ((placeShips rnd (pickSystem w self origin rnd) 0
            (allocShips heap (self.ships.map (fun ship => w.FinishLoading ship.obj)))
          ++ placeShips rnd (pickSystem w self origin rnd) self.ships.length
            (allocShips (heap + self.ships.length)
              (List.zipWith (fun ship name => ShipObj.SetName ship name)
                self.stockShips self.shipNames))
          ++ fleetShips).map
            (fun ship => ship.update (fun o =>
              (o.SetGovernment self.government).SetIsSpecial))) ∧
      (self.fleets = [] → self.stockFleets = [] → fleetShips = []) := by
  obtain ⟨extra1, h1, e1⟩ := placeFleets_append (pickSystem w self origin rnd) heap self.fleets
    (placeShips rnd (pickSystem w self origin rnd) 0
      (allocShips heap (self.ships.map (fun ship => w.FinishLoading ship.obj))
        ++ allocShips (heap + (allocShips heap
            (self.ships.map (fun ship => w.FinishLoading ship.obj))).length)
          (List.zipWith (fun ship name => ShipObj.SetName ship name)
            self.stockShips self.shipNames)))
  obtain ⟨extra2, h2, e2⟩ := placeFleets_append (pickSystem w self origin rnd) heap
    self.stockFleets
    (placeShips rnd (pickSystem w self origin rnd) 0
      (allocShips heap (self.ships.map (fun ship => w.FinishLoading ship.obj))
        ++ allocShips (heap + (allocShips heap
            (self.ships.map (fun ship => w.FinishLoading ship.obj))).length)
          (List.zipWith (fun ship name => ShipObj.SetName ship name)
            self.stockShips self.shipNames)) ++ extra1)
  refine ⟨extra1 ++ extra2, ?_, ?_⟩
  · unfold Instantiate
    simp only
    rw [h1, h2, placeShips_append, allocShips_length, List.length_map, List.append_assoc,
      Nat.zero_add]
  · intro hf hs
    rw [e1 hf, e2 hs]
    rfl

end NPC

namespace NPC

/-- The government loop changes neither the name nor the maximum velocity of a ship. -/
theorem governmentLoop_keeps (g : Option Government) (ships : List Ship) :
    (ships.map (fun ship => ship.update (fun o => (o.SetGovernment g).SetIsSpecial))).map
        (fun ship => ship.obj.name) = ships.map (fun ship => ship.obj.name) ∧
      (ships.map (fun ship => ship.update (fun o => (o.SetGovernment g).SetIsSpecial))).map
        (fun ship => ship.obj.maxVelocity) = ships.map (fun ship => ship.obj.maxVelocity) := by
  rw [List.map_map, List.map_map]
  exact ⟨rfl, rfl⟩

theorem allocShips_keeps (heap : Nat) (objs : List ShipObj) :
    (allocShips heap objs).map (fun ship => ship.obj.name) = objs.map (fun o => o.name) ∧
      (allocShips heap objs).map (fun ship => ship.obj.maxVelocity)
        = objs.map (fun o => o.maxVelocity) := by
  have h := allocShips_map_obj heap objs
  constructor
  · conv_rhs => rw [← h]
    rw [List.map_map]
    rfl
  · conv_rhs => rw [← h]
    rw [List.map_map]
    rfl

end NPC

/-- C18: stock ship expansion. For a template loaded from a node into a fresh NPC,
the actors of the record `Instantiate` returns are the copies of the inline
blueprints in template order, then one copy of the stock blueprint `<model>` for
each childless line `ship <model>` or `ship <model> <name>` in line order, named
`<name>` when a name was supplied and `<model>` when not, then what the fleets
placed; so the actors before fleet expansion are as many as the inline
blueprints and the stock ship lines together. -/
theorem C18_stock_ship_lines_become_named_copies (w : World) (node : DataNode) (heap0 : Nat)
    (subs : Subs) (origin : Option System) (rnd : Random) (heap : Nat) :
    (NPC.Load w {} node heap0).ships.length
        = (node.children.filter DataNode.isInlineShip).length ∧
      ∃ inline stock fleet : List Ship,
        (NPC.Instantiate w (NPC.Load w {} node heap0) subs origin rnd heap).1.ships
          = inline ++ stock ++ fleet ∧
        inline.map (fun ship => ship.obj.name) =
          (NPC.Load w {} node heap0).ships.map (fun ship => (w.FinishLoading ship.obj).name) ∧
        inline.map (fun ship => ship.obj.maxVelocity) =
          (NPC.Load w {} node heap0).ships.map
            (fun ship => (w.FinishLoading ship.obj).maxVelocity) ∧
        stock.map (fun ship => ship.obj.name) =
          (node.children.filter DataNode.isStockShip).map DataNode.stockName ∧
        stock.map (fun ship => ship.obj.maxVelocity) =
          (node.children.filter DataNode.isStockShip).map
            (fun line => (w.Ships (line.Token 1)).maxVelocity) ∧
        (inline ++ stock).length =
          (node.children.filter DataNode.isInlineShip).length
            + (node.children.filter DataNode.isStockShip).length ∧
        ((NPC.Load w {} node heap0).fleets = [] → (NPC.Load w {} node heap0).stockFleets = [] →
          fleet = []) := by
  obtain ⟨hstock, hnames, hlen⟩ := NPC.Load_shipLines w node heap0
  obtain ⟨fleetShips, hships, hfleet⟩ :=
    NPC.Instantiate_ships w (NPC.Load w {} node heap0) subs origin rnd heap
  rw [hstock, hnames, NPC.zipWith_SetName] at hships
  rw [List.map_append, List.map_append] at hships
  refine ⟨hlen, _, _, _, hships, ?_, ?_, ?_, ?_, ?_, ?_⟩
  · rw [(NPC.governmentLoop_keeps _ _).1, (NPC.placeShips_keeps _ _ _ _).1,
      (NPC.allocShips_keeps _ _).1, List.map_map]
    rfl
  · rw [(NPC.governmentLoop_keeps _ _).2, (NPC.placeShips_keeps _ _ _ _).2,
      (NPC.allocShips_keeps _ _).2, List.map_map]
    rfl
  · rw [(NPC.governmentLoop_keeps _ _).1, (NPC.placeShips_keeps _ _ _ _).1,
      (NPC.allocShips_keeps _ _).1, List.map_map]
    rfl
  · rw [(NPC.governmentLoop_keeps _ _).2, (NPC.placeShips_keeps _ _ _ _).2,
      (NPC.allocShips_keeps _ _).2, List.map_map]
    rfl
  · simp only [List.length_append, List.length_map, NPC.placeShips_length, allocShips_length,
      hlen]
  · intro hf hs
    rw [hfleet hf hs]
    rfl

/-- C18 at the sample node: the inline ship first, then the stock ships "Alice"
(a Sparrow) and "Wasp" (a Wasp without a name of its own). -/
theorem C18_stock_ship_lines_become_named_copies_witness :
    (NPC.Instantiate sampleWorld (NPC.Load sampleWorld {} fleetNode 0) [] none sampleRandom
        10).1.ships.map (fun ship => ship.obj.name) = ["Hawk", "Alice", "Wasp"] ∧
      (fleetNode.children.filter DataNode.isStockShip).map DataNode.stockName
        = ["Alice", "Wasp"] ∧
      ∃ inline stock fleet : List Ship,
        (NPC.Instantiate sampleWorld (NPC.Load sampleWorld {} fleetNode 0) [] none sampleRandom
          10).1.ships = inline ++ stock ++ fleet ∧
        inline.map (fun ship => ship.obj.name) =
          (NPC.Load sampleWorld {} fleetNode 0).ships.map
            (fun ship => (sampleWorld.FinishLoading ship.obj).name) ∧
        inline.map (fun ship => ship.obj.maxVelocity) =
          (NPC.Load sampleWorld {} fleetNode 0).ships.map
            (fun ship => (sampleWorld.FinishLoading ship.obj).maxVelocity) ∧
        stock.map (fun ship => ship.obj.name) =
          (fleetNode.children.filter DataNode.isStockShip).map DataNode.stockName ∧
        stock.map (fun ship => ship.obj.maxVelocity) =
          (fleetNode.children.filter DataNode.isStockShip).map
            (fun line => (sampleWorld.Ships (line.Token 1)).maxVelocity) ∧
        (inline ++ stock).length =
          (fleetNode.children.filter DataNode.isInlineShip).length
            + (fleetNode.children.filter DataNode.isStockShip).length ∧
        ((NPC.Load sampleWorld {} fleetNode 0).fleets = [] →
          (NPC.Load sampleWorld {} fleetNode 0).stockFleets = [] → fleet = []) :=
  ⟨by decide, by decide,
    (C18_stock_ship_lines_become_named_copies sampleWorld fleetNode 0 [] none sampleRandom 10).2⟩

/-! ## Save and Load: the dialog text -/

theorem findBreak_spec (rest : List Char) (pos : Nat) (h : findBreak rest = some pos) :
    rest = rest.take pos ++ '\n' :: '\t' :: rest.drop (pos + 2) := by
  induction rest generalizing pos with
  | nil => simp [findBreak] at h
  | cons c tl ih =>
    unfold findBreak at h
    by_cases hc : c = '\n' ∧ tl.head? = some '\t'
    · rw [if_pos hc] at h
      injection h with h
      subst h
      obtain ⟨hc1, hc2⟩ := hc
      cases tl with
      | nil => simp at hc2
      | cons d tl2 =>
        simp only [List.head?_cons, Option.some.injEq] at hc2
        subst hc1 hc2
        rfl
    · rw [if_neg hc] at h
      cases hfind : findBreak tl with
      | none => simp [hfind] at h
      | some p =>
        rw [hfind] at h
        simp only [Option.map_some', Option.some.injEq] at h
        subst h
        have ih2 := ih p hfind
        simp only [List.take_succ_cons, List.cons_append]
        rw [show p + 1 + 2 = (p + 2) + 1 by omega, List.drop_succ_cons]
        exact congrArg (List.cons c) ih2

theorem findBreak_zero (rest : List Char) (h : findBreak rest = some 0) :
    ∃ tl, rest = '\n' :: '\t' :: tl := by
  have h2 := findBreak_spec rest 0 h
  exact ⟨rest.drop 2, by simpa using h2⟩

theorem joinParagraphs_cons (paragraph : List Char) (rest : List (List Char)) (h : rest ≠ []) :
    joinParagraphs (paragraph :: rest) = paragraph ++ '\n' :: '\t' :: joinParagraphs rest := by
  cases rest with
  | nil => exact absurd rfl h
  | cons q qs => rfl

theorem joinParagraphs_saveParagraphs (fuel : Nat) (rest : List Char) (h : rest.length < fuel) :
    saveParagraphs fuel rest ≠ [] ∧ joinParagraphs (saveParagraphs fuel rest) = rest := by
  induction fuel generalizing rest with
  | zero => omega
  | succ fuel ih =>
    unfold saveParagraphs
    cases hfind : findBreak rest with
    | none => exact ⟨List.cons_ne_nil _ _, rfl⟩
    | some pos =>
      have hspec := findBreak_spec rest pos hfind
      have hlen : (rest.drop (pos + 2)).length < fuel := by
        have h2 := congrArg List.length hspec
        simp only [List.length_append, List.length_cons, List.length_take] at h2
        simp only [List.length_drop]
        omega
      obtain ⟨hne, hjoin⟩ := ih (rest.drop (pos + 2)) hlen
      refine ⟨List.cons_ne_nil _ _, ?_⟩
      simp only
      rw [joinParagraphs_cons _ _ hne, hjoin]
      exact hspec.symm

namespace NPC

theorem appendParagraph_empty (tok : String) : appendParagraph "" tok = tok := by
  unfold appendParagraph
  have h : "".isEmpty = true := by decide
  rw [h]
  apply String.ext
  simp

theorem appendParagraph_data (text tok : String) (h : text.data ≠ []) :
    (appendParagraph text tok).data = text.data ++ '\n' :: '\t' :: tok.data := by
  unfold appendParagraph
  have hne : text.isEmpty = false := by
    rw [Bool.eq_false_iff]
    intro hemp
    rw [String.isEmpty_iff] at hemp
    rw [hemp] at h
    exact h rfl
  simp only [hne, Bool.not_false, if_true, String.data_append, List.append_assoc]
  rfl

theorem foldl_appendParagraph_data (paragraphs : List String) (text : String)
    (h : text.data ≠ []) :
    (paragraphs.foldl appendParagraph text).data
      = joinParagraphs (text.data :: paragraphs.map String.data) := by
  induction paragraphs generalizing text with
  | nil => rfl
  | cons tok rest ih =>
    rw [List.foldl_cons]
    have hstep := appendParagraph_data text tok h
    have hne : (appendParagraph text tok).data ≠ [] := by
      rw [hstep]
      simp
    rw [ih _ hne, hstep, List.map_cons, joinParagraphs_cons _ _ (List.cons_ne_nil _ _)]
    cases hrest : rest.map String.data with
    | nil => simp [joinParagraphs]
    | cons q qs =>
      rw [joinParagraphs_cons _ _ (List.cons_ne_nil _ _),
        joinParagraphs_cons _ _ (List.cons_ne_nil _ _)]
      simp

theorem Load_dialog_node (w : World) (grands : List DataNode) (heap : Nat) :
    (Load w {} (DataNode.mk ["npc"] [DataNode.mk ["dialog"] grands]) heap).dialogText
      = grands.foldl (fun t grand => grand.tokens.foldl appendParagraph t) "" :=
  rfl

theorem foldl_paragraph_lines (paragraphs : List String) (text : String) :
    (paragraphs.map (fun paragraph => DataNode.mk [paragraph] [])).foldl
        (fun t grand => grand.tokens.foldl appendParagraph t) text
      = paragraphs.foldl appendParagraph text := by
  induction paragraphs generalizing text with
  | nil => rfl
  | cons tok rest ih =>
    simp only [List.map_cons, List.foldl_cons, DataNode.tokens, List.foldl_nil]
    exact ih _

/-- What `Load` makes of the "dialog" node `Save` writes, for a fresh NPC. -/
theorem Load_SaveDialog_eq (w : World) (self : NPC) (heap : Nat) :
    (Load w {} (DataNode.mk ["npc"] [self.SaveDialog]) heap).dialogText
      = self.SaveParagraphs.foldl appendParagraph "" := by
  unfold SaveDialog
  rw [Load_dialog_node, foldl_paragraph_lines]

/-- The dialog text survives `Save` and `Load` when it does not begin with a
paragraph break. -/
theorem Load_SaveDialog (w : World) (self : NPC) (heap : Nat)
    (h : ∀ tl, self.dialogText.data ≠ '\n' :: '\t' :: tl) :
    (Load w {} (DataNode.mk ["npc"] [self.SaveDialog]) heap).dialogText = self.dialogText := by
  rw [Load_SaveDialog_eq]
  unfold SaveParagraphs
  obtain ⟨hne, hjoin⟩ := joinParagraphs_saveParagraphs (self.dialogText.length + 1)
    self.dialogText.data (Nat.lt_succ_self _)
  have hfirst : saveParagraphs (self.dialogText.length + 1) self.dialogText.data
      = [self.dialogText.data] ∨
      ∃ p ps, p ≠ [] ∧
        saveParagraphs (self.dialogText.length + 1) self.dialogText.data = p :: ps := by
    unfold saveParagraphs
    cases hfind : findBreak self.dialogText.data with
    | none => exact Or.inl rfl
    | some pos =>
      right
      refine ⟨_, _, ?_, rfl⟩
      cases pos with
      | zero =>
        obtain ⟨tl, htl⟩ := findBreak_zero _ hfind
        exact absurd htl (h tl)
      | succ n =>
        intro hnil
        cases hdata : self.dialogText.data with
        | nil => simp [hdata, findBreak] at hfind
        | cons c tl => simp [hdata] at hnil
  apply String.ext
  rcases hfirst with hone | ⟨p, ps, hp, hcons⟩
  · rw [hone]
    simp only [List.map_cons, List.map_nil, List.foldl_cons, List.foldl_nil,
      appendParagraph_empty]
  · rw [hcons] at hjoin
    rw [hcons]
    simp only [List.map_cons, List.foldl_cons, appendParagraph_empty]
    rw [foldl_appendParagraph_data _ _ (by simpa using hp), List.map_map]
    have hmap : List.map (String.data ∘ String.mk) ps = ps := by
      conv_rhs => rw [← List.map_id ps]
      exact List.map_congr_left (fun _ _ => rfl)
    rw [hmap]
    exact hjoin

end NPC

/-- C14 fails as stated: the record instantiated from a template
whose first dialog paragraph is "<npc>" and whose ship has no name has the dialog
text "\n\tHello"; `Save` writes the paragraphs "" and "Hello" for it, and `Load` of
a "dialog" node with these two lines into a fresh NPC gives "Hello". -/
theorem C14_leading_paragraph_break_is_lost :
    (NPC.Instantiate npcWorld namelessTemplate [] none sampleRandom 0).1.dialogText
        = "\n\tHello" ∧
      (NPC.Instantiate npcWorld namelessTemplate [] none sampleRandom 0).1.dialogText ≠ "" ∧
      (NPC.Instantiate npcWorld namelessTemplate [] none sampleRandom 0).1.SaveParagraphs
        = ["", "Hello"] ∧
      (NPC.Load npcWorld {} (DataNode.mk ["npc"]
        [(NPC.Instantiate npcWorld namelessTemplate [] none sampleRandom 0).1.SaveDialog])
        0).dialogText = "Hello" ∧
      (NPC.Load npcWorld {} (DataNode.mk ["npc"]
        [(NPC.Instantiate npcWorld namelessTemplate [] none sampleRandom 0).1.SaveDialog])
        0).dialogText
        ≠ (NPC.Instantiate npcWorld namelessTemplate [] none sampleRandom 0).1.dialogText := by
  decide

/-- C14, amended: for every dialog text that does not begin with the paragraph break
"\n\t", splitting it into paragraphs at each occurrence of "\n\t" as `Save` does and
loading a "dialog" node whose child lines are these paragraphs, one token each and
in order, into a fresh NPC as `Load` does gives back the text. -/
theorem C14_dialog_text_survives_Save_and_Load (w : World) (r : NPC) (heap : Nat)
    (h : r.dialogText.data.take 2 ≠ ['\n', '\t']) :
    (NPC.Load w {} (DataNode.mk ["npc"] [r.SaveDialog]) heap).dialogText = r.dialogText :=
  NPC.Load_SaveDialog w r heap (fun rest hrest => h (by rw [hrest]; rfl))

/-- C14, amended, at a text of four paragraphs, the third and the fourth empty. -/
theorem C14_dialog_text_survives_Save_and_Load_witness :
    ({ dialogText := "Well done.\n\tGoodbye.\n\t\n\t" } : NPC).SaveParagraphs
        = ["Well done.", "Goodbye.", "", ""] ∧
      (NPC.Load sampleWorld {} (DataNode.mk ["npc"]
        [({ dialogText := "Well done.\n\tGoodbye.\n\t\n\t" } : NPC).SaveDialog]) 0).dialogText
        = "Well done.\n\tGoodbye.\n\t\n\t" :=
  ⟨by decide,
    C14_dialog_text_survives_Save_and_Load sampleWorld
      { dialogText := "Well done.\n\tGoodbye.\n\t\n\t" } 0 (by decide)⟩

/-! ## Save and Load: the evaluator after a reload -/

namespace StdMap

theorem find_eq_none_of_not_mem_keys (m : StdMap Nat Nat) (k : Nat) (h : k ∉ keys m) :
    find m k = none := by
  cases hfind : find m k with
  | none => rfl
  | some v =>
    exact absurd (List.mem_map.mpr ⟨(k, v), mem_of_find m k v hfind, rfl⟩) h

end StdMap

namespace NPC

theorem LoadChild_of_not_ship_progress (w : World) (st : NPC × Nat) (child : DataNode)
    (hns : child.Token 0 ≠ "ship") :
    (LoadChild w st child).1.actions = st.1.actions ∧ (LoadChild w st child).2 = st.2 := by
  unfold LoadChild
  simp only
  by_cases c1 : (decide (child.Token 0 = "enter") || decide (child.Token 0 = "remain")
      || decide (child.Token 0 = "wait")) = true
  · rw [if_pos c1]
    by_cases c2 : child.Size ≥ 2
    · rw [if_pos c2]; exact ⟨rfl, rfl⟩
    · rw [if_neg c2]; exact ⟨rfl, rfl⟩
  rw [if_neg c1]
  by_cases c3 : child.Token 0 = "succeed" ∧ child.Size ≥ 2
  · rw [if_pos c3]; exact ⟨rfl, rfl⟩
  rw [if_neg c3]
  by_cases c4 : child.Token 0 = "fail" ∧ child.Size ≥ 2
  · rw [if_pos c4]; exact ⟨rfl, rfl⟩
  rw [if_neg c4]
  by_cases c5 : child.Token 0 = "government" ∧ child.Size ≥ 2
  · rw [if_pos c5]; exact ⟨rfl, rfl⟩
  rw [if_neg c5]
  by_cases c6 : child.Token 0 = "dialog"
  · rw [if_pos c6]; exact ⟨rfl, rfl⟩
  rw [if_neg c6]
  by_cases c7 : child.Token 0 = "conversation" ∧ child.HasChildren = true
  · rw [if_pos c7]; exact ⟨rfl, rfl⟩
  rw [if_neg c7]
  by_cases c8 : child.Token 0 = "conversation" ∧ child.Size > 1
  · rw [if_pos c8]; exact ⟨rfl, rfl⟩
  rw [if_neg c8]
  rw [if_neg hns]
  by_cases c12 : child.Token 0 = "fleet"
  · rw [if_pos c12]
    by_cases c13 : child.HasChildren = true
    · rw [if_pos c13]; exact ⟨rfl, rfl⟩
    · rw [if_neg c13]
      by_cases c14 : child.Size ≥ 2
      · rw [if_pos c14]; exact ⟨rfl, rfl⟩
      · rw [if_neg c14]; exact ⟨rfl, rfl⟩
  rw [if_neg c12]
  exact ⟨rfl, rfl⟩

theorem foldl_LoadChild_of_not_ship (w : World) (children : List DataNode) (st : NPC × Nat)
    (h : ∀ child ∈ children, child.Token 0 ≠ "ship") :
    (children.foldl (LoadChild w) st).1.ships = st.1.ships ∧
      (children.foldl (LoadChild w) st).1.actions = st.1.actions ∧
      (children.foldl (LoadChild w) st).2 = st.2 := by
  induction children generalizing st with
  | nil => exact ⟨rfl, rfl, rfl⟩
  | cons child rest ih =>
    rw [List.foldl_cons]
    obtain ⟨h1, h2, h3⟩ := ih (LoadChild w st child) (fun c hc => h c (List.mem_cons_of_mem _ hc))
    have hc := h child (List.mem_cons_self _ _)
    obtain ⟨g1, _, _⟩ := LoadChild_of_not_ship w st child hc
    obtain ⟨g2, g3⟩ := LoadChild_of_not_ship_progress w st child hc
    exact ⟨h1.trans g1, h2.trans g2, h3.trans g3⟩

theorem foldl_SaveConditions (w : World) (out : Output) (self : NPC) (st : NPC × Nat)
    (hvalue : ∀ n, w.Value (out.Number n) = n)
    (hs : st.1.succeedIf = 0) (hf : st.1.failIf = 0) :
    ((self.SaveConditions out).foldl (LoadChild w) st).1.succeedIf = self.succeedIf ∧
      ((self.SaveConditions out).foldl (LoadChild w) st).1.failIf = self.failIf := by
  unfold SaveConditions
  by_cases h1 : self.succeedIf = 0 <;> by_cases h2 : self.failIf = 0
  · simp [h1, h2, hs, hf]
  · simp [h1, h2, LoadChild_fail, hvalue, hs]
  · simp [h1, h2, LoadChild_succeed, hvalue, hf]
  · simp [h1, h2, LoadChild_succeed, LoadChild_fail, hvalue]

/-- The lines of `Save` ahead of the ships are no "ship" lines. -/
theorem Save_head_not_ship (out : Output) (w : World) (self : NPC) (hout : out.ReadsBack w) :
    ∀ child ∈ self.SaveConditions out ++
        (match self.government with
          | some government => [DataNode.mk ["government", government.name] []]
          | none => []) ++
        (if !self.dialogText.isEmpty then [self.SaveDialog] else []) ++
        (if !self.conversation.IsEmpty then [out.ConversationSave self.conversation] else []),
      child.Token 0 ≠ "ship" := by
  intro child hchild
  simp only [List.mem_append] at hchild
  rcases hchild with ((hchild | hchild) | hchild) | hchild
  · unfold SaveConditions at hchild
    simp only [List.mem_append] at hchild
    rcases hchild with hchild | hchild
    · split_ifs at hchild
      · rw [List.mem_singleton.mp hchild]
        show "succeed" ≠ "ship"
        decide
      · simp at hchild
    · split_ifs at hchild
      · rw [List.mem_singleton.mp hchild]
        show "fail" ≠ "ship"
        decide
      · simp at hchild
  · cases hg : self.government with
    | none => simp [hg] at hchild
    | some g =>
      simp only [hg, List.mem_singleton] at hchild
      rw [hchild]
      show "government" ≠ "ship"
      decide
  · split_ifs at hchild
    · rw [List.mem_singleton.mp hchild]
      show "dialog" ≠ "ship"
      decide
    · simp at hchild
  · split_ifs at hchild
    · rw [List.mem_singleton.mp hchild, hout.2.2]
      decide
    · simp at hchild

end NPC

namespace NPC

theorem foldl_LoadActions_of_no_actions (w : World) (ptr : Nat) (grands : List DataNode)
    (actions : StdMap Nat Nat) (h : ∀ grand ∈ grands, grand.Token 0 ≠ "actions") :
    grands.foldl (LoadActions w ptr) actions = actions := by
  induction grands generalizing actions with
  | nil => rfl
  | cons grand rest ih =>
    rw [List.foldl_cons]
    have hstep : LoadActions w ptr actions grand = actions := by
      unfold LoadActions
      rw [if_neg (fun hc => h grand (List.mem_cons_self _ _) hc.1)]
    rw [hstep]
    exact ih actions (fun g hg => h g (List.mem_cons_of_mem _ hg))

theorem SaveShip_token (out : Output) (w : World) (self : NPC) (ship : Ship)
    (hout : out.ReadsBack w) :
    (self.SaveShip out ship).Token 0 = "ship" ∧ (self.SaveShip out ship).HasChildren = true := by
  obtain ⟨htok, hchildren, _⟩ := hout.2.1 ship.obj
  unfold SaveShip
  cases StdMap.find self.actions ship.ptr with
  | none => exact ⟨htok, hchildren⟩
  | some v =>
    simp only
    by_cases hv : v ≠ 0
    · rw [if_pos hv]
      refine ⟨htok, ?_⟩
      simp [DataNode.HasChildren, DataNode.children]
    · rw [if_neg hv]
      exact ⟨htok, hchildren⟩

/-- What `Load` makes of the "actions" line of a saved ship: the entry of the ship
is set to its mask when the mask is not zero, and nothing is set otherwise. -/
theorem foldl_LoadActions_SaveShip (out : Output) (w : World) (self : NPC) (ship : Ship)
    (hout : out.ReadsBack w) (ptr : Nat) (actions : StdMap Nat Nat) :
    (self.SaveShip out ship).children.foldl (LoadActions w ptr) actions =
      if self.maskOf ship.ptr ≠ 0 then StdMap.set actions ptr (self.maskOf ship.ptr)
      else actions := by
  obtain ⟨_, _, hnone⟩ := hout.2.1 ship.obj
  unfold SaveShip maskOf
  cases StdMap.find self.actions ship.ptr with
  | none =>
    simp only [Option.getD_none, ne_eq, not_true_eq_false, if_false]
    exact foldl_LoadActions_of_no_actions w ptr _ actions hnone
  | some v =>
    simp only [Option.getD_some]
    by_cases hv : v ≠ 0
    · rw [if_pos hv, if_pos hv]
      have hchildren : (DataNode.mk (out.ShipSave ship.obj).tokens
          ((out.ShipSave ship.obj).children
            ++ [DataNode.mk ["actions", out.Number v] []])).children
          = (out.ShipSave ship.obj).children ++ [DataNode.mk ["actions", out.Number v] []] := rfl
      rw [hchildren, List.foldl_append, foldl_LoadActions_of_no_actions w ptr _ actions hnone,
        List.foldl_cons, List.foldl_nil]
      have hline : LoadActions w ptr actions (DataNode.mk ["actions", out.Number v] [])
          = StdMap.set actions ptr (w.Value (out.Number v)) := rfl
      rw [hline, hout.1]
    · rw [if_neg hv, if_neg hv]
      exact foldl_LoadActions_of_no_actions w ptr _ actions hnone

theorem LoadChild_SaveShip (out : Output) (w : World) (self : NPC) (ship : Ship)
    (hout : out.ReadsBack w) (st : NPC × Nat) :
    LoadChild w st (self.SaveShip out ship) =
      ({ st.1 with
          ships := st.1.ships ++ [⟨st.2, w.LoadShip (self.SaveShip out ship)⟩]
          actions :=
            if self.maskOf ship.ptr ≠ 0 then StdMap.set st.1.actions st.2 (self.maskOf ship.ptr)
            else st.1.actions }, st.2 + 1) := by
  obtain ⟨htok, hchildren⟩ := SaveShip_token out w self ship hout
  rw [LoadChild_of_ship w st _ htok, if_pos hchildren,
    foldl_LoadActions_SaveShip out w self ship hout]

/-- The masks of the ships, ship by ship, after loading the saved ships: the masks
there were, then the masks the saved ships had in the record saved. -/
theorem foldl_LoadChild_SaveShip (out : Output) (w : World) (self : NPC)
    (hout : out.ReadsBack w) (ships : List Ship) (st : NPC × Nat)
    (hv : StdMap.Valid st.1.actions) (hk : ∀ k ∈ StdMap.keys st.1.actions, k < st.2)
    (hp : ∀ ship ∈ st.1.ships, ship.ptr < st.2) :
    ((ships.map (self.SaveShip out)).foldl (LoadChild w) st).1.ships.map
        (fun ship => ((ships.map (self.SaveShip out)).foldl (LoadChild w) st).1.maskOf ship.ptr)
      = st.1.ships.map (fun ship => st.1.maskOf ship.ptr)
        ++ ships.map (fun ship => self.maskOf ship.ptr) := by
  induction ships generalizing st with
  | nil => simp
  | cons ship rest ih =>
    rw [List.map_cons, List.foldl_cons, LoadChild_SaveShip out w self ship hout st]
    have hfresh : StdMap.find st.1.actions st.2 = none :=
      StdMap.find_eq_none_of_not_mem_keys _ _ (fun hmem => Nat.lt_irrefl _ (hk _ hmem))
    by_cases hm : self.maskOf ship.ptr ≠ 0
    · rw [if_pos hm]
      have hv1 : StdMap.Valid (StdMap.set st.1.actions st.2 (self.maskOf ship.ptr)) :=
        StdMap.valid_set _ _ _ hv
      have hk1 : ∀ k ∈ StdMap.keys (StdMap.set st.1.actions st.2 (self.maskOf ship.ptr)),
          k < st.2 + 1 := by
        intro k hkm
        rcases (StdMap.mem_keys_set _ _ _ _).mp hkm with h1 | h1
        · omega
        · exact Nat.lt_succ_of_lt (hk k h1)
      have hp1 : ∀ s ∈ st.1.ships ++ [(⟨st.2, w.LoadShip (self.SaveShip out ship)⟩ : Ship)],
          s.ptr < st.2 + 1 := by
        intro s hs
        rcases List.mem_append.mp hs with h1 | h1
        · exact Nat.lt_succ_of_lt (hp s h1)
        · rw [List.mem_singleton.mp h1]
          exact Nat.lt_succ_self _
      rw [ih ({ st.1 with
          ships := st.1.ships ++ [⟨st.2, w.LoadShip (self.SaveShip out ship)⟩]
          actions := StdMap.set st.1.actions st.2 (self.maskOf ship.ptr) }, st.2 + 1)
        hv1 hk1 hp1]
      simp only [List.map_append, List.map_cons, List.map_nil, List.append_assoc,
        List.singleton_append, maskOf]
      congr 1
      · apply List.map_congr_left
        intro s hs
        rw [StdMap.find_set_ne _ _ _ _ (Nat.ne_of_lt (hp s hs))]
      · rw [StdMap.find_set_self]
        rfl
    · rw [if_neg hm]
      have hm0 : self.maskOf ship.ptr = 0 := by simpa using hm
      have hk1 : ∀ k ∈ StdMap.keys st.1.actions, k < st.2 + 1 :=
        fun k hkm => Nat.lt_succ_of_lt (hk k hkm)
      have hp1 : ∀ s ∈ st.1.ships ++ [(⟨st.2, w.LoadShip (self.SaveShip out ship)⟩ : Ship)],
          s.ptr < st.2 + 1 := by
        intro s hs
        rcases List.mem_append.mp hs with h1 | h1
        · exact Nat.lt_succ_of_lt (hp s h1)
        · rw [List.mem_singleton.mp h1]
          exact Nat.lt_succ_self _
      rw [ih ({ st.1 with
          ships := st.1.ships ++ [⟨st.2, w.LoadShip (self.SaveShip out ship)⟩]
          actions := st.1.actions }, st.2 + 1) hv hk1 hp1]
      simp only [List.map_append, List.map_cons, List.map_nil, List.append_assoc,
        List.singleton_append, maskOf]
      rw [hfresh]
      simp only [Option.getD_none]
      unfold maskOf at hm0
      rw [hm0]

end NPC

namespace NPC

/-- The lines of `Save` behind the "succeed" and "fail" lines are no such lines. -/
theorem Save_tail_not_condition (out : Output) (w : World) (self : NPC)
    (hout : out.ReadsBack w) :
    ∀ child ∈
        (match self.government with
          | some government => [DataNode.mk ["government", government.name] []]
          | none => []) ++
        ((if !self.dialogText.isEmpty then [self.SaveDialog] else []) ++
        ((if !self.conversation.IsEmpty then [out.ConversationSave self.conversation] else []) ++
        self.ships.map (self.SaveShip out))),
      child.Token 0 ≠ "succeed" ∧ child.Token 0 ≠ "fail" := by
  intro child hchild
  simp only [List.mem_append] at hchild
  rcases hchild with hchild | hchild | hchild | hchild
  · cases hg : self.government with
    | none => simp [hg] at hchild
    | some g =>
      simp only [hg, List.mem_singleton] at hchild
      rw [hchild]
      show "government" ≠ "succeed" ∧ "government" ≠ "fail"
      decide
  · split_ifs at hchild
    · rw [List.mem_singleton.mp hchild]
      show "dialog" ≠ "succeed" ∧ "dialog" ≠ "fail"
      decide
    · simp at hchild
  · split_ifs at hchild
    · rw [List.mem_singleton.mp hchild, hout.2.2]
      decide
    · simp at hchild
  · obtain ⟨ship, _, rfl⟩ := List.mem_map.mp hchild
    rw [(SaveShip_token out w self ship hout).1]
    decide

/-- The answers of the evaluator depend on the masks of the ships, ship by ship,
and on the two conditions only. -/
theorem evaluator_eq_of_masks (a b : NPC) (ha : a.WellFormed) (hb : b.WellFormed)
    (hs : a.succeedIf = b.succeedIf) (hf : a.failIf = b.failIf)
    (hm : a.ships.map (fun ship => a.maskOf ship.ptr)
      = b.ships.map (fun ship => b.maskOf ship.ptr)) :
    a.HasFailed = b.HasFailed ∧ a.HasSucceeded = b.HasSucceeded := by
  have hsome : ∀ x : NPC, x.SomeActorFailed ↔
      ∃ m ∈ x.ships.map (fun ship => x.maskOf ship.ptr), m &&& x.failIf ≠ 0 := by
    intro x
    unfold SomeActorFailed
    simp only [List.mem_map]
    constructor
    · rintro ⟨ship, hship, hne⟩
      exact ⟨_, ⟨ship, hship, rfl⟩, hne⟩
    · rintro ⟨m, ⟨ship, hship, rfl⟩, hne⟩
      exact ⟨ship, hship, hne⟩
  have hall : ∀ x : NPC, (∀ ship ∈ x.ships, x.maskOf ship.ptr &&& x.succeedIf = x.succeedIf) ↔
      ∀ m ∈ x.ships.map (fun ship => x.maskOf ship.ptr), m &&& x.succeedIf = x.succeedIf := by
    intro x
    simp only [List.mem_map]
    constructor
    · rintro h m ⟨ship, hship, rfl⟩
      exact h ship hship
    · intro h ship hship
      exact h _ ⟨ship, hship, rfl⟩
  have hfailed : a.HasFailed = b.HasFailed := by
    rw [Bool.eq_iff_iff, HasFailed_iff_of_WellFormed a ha, HasFailed_iff_of_WellFormed b hb,
      hsome a, hsome b, hm, hf]
  refine ⟨hfailed, ?_⟩
  rw [Bool.eq_iff_iff, HasSucceeded_iff, HasSucceeded_iff, hall a, hall b, hm, hs, hfailed]

/-- A record read back from what `Save` wrote gives the answers of the record saved. -/
theorem Load_Save_evaluator (out : Output) (w : World) (self : NPC) (heap : Nat)
    (hout : out.ReadsBack w) (hwf : self.WellFormed) :
    (Load w {} (self.Save out) heap).HasFailed = self.HasFailed ∧
      (Load w {} (self.Save out) heap).HasSucceeded = self.HasSucceeded := by
  apply evaluator_eq_of_masks _ _ (WellFormed_Load w {} _ heap WellFormed_default) hwf
  · -- succeedIf
    unfold Load Save
    simp only [DataNode.tokens, DataNode.children, List.drop_succ_cons, List.drop_nil,
      List.foldl_nil, List.append_assoc]
    rw [List.foldl_append]
    rw [(foldl_LoadChild_conditions w _ _ (Save_tail_not_condition out w self hout)).1]
    exact (foldl_SaveConditions w out self ({}, heap) hout.1 rfl rfl).1
  · -- failIf
    unfold Load Save
    simp only [DataNode.tokens, DataNode.children, List.drop_succ_cons, List.drop_nil,
      List.foldl_nil, List.append_assoc]
    rw [List.foldl_append]
    rw [(foldl_LoadChild_conditions w _ _ (Save_tail_not_condition out w self hout)).2]
    exact (foldl_SaveConditions w out self ({}, heap) hout.1 rfl rfl).2
  · -- the masks, ship by ship
    unfold Load Save
    simp only [DataNode.tokens, DataNode.children, List.drop_succ_cons, List.drop_nil,
      List.foldl_nil]
    rw [List.foldl_append]
    obtain ⟨h1, h2, h3⟩ := foldl_LoadChild_of_not_ship w _ ({}, heap)
      (Save_head_not_ship out w self hout)
    have hmasks := foldl_LoadChild_SaveShip out w self hout self.ships
      (List.foldl (LoadChild w) ({}, heap)
        (self.SaveConditions out ++
          (match self.government with
            | some government => [DataNode.mk ["government", government.name] []]
            | none => []) ++
          (if !self.dialogText.isEmpty then [self.SaveDialog] else []) ++
          (if !self.conversation.IsEmpty then [out.ConversationSave self.conversation] else [])))
      (by rw [h2]; simp [StdMap.Valid, StdMap.keys])
      (by rw [h2]; simp [StdMap.keys])
      (by rw [h1]; simp)
    rw [h1] at hmasks
    simp only [List.map_nil, List.nil_append] at hmasks
    rw [← hmasks, List.map_map]
    rfl

end NPC

theorem decimalOutput_ReadsBack : decimalOutput.ReadsBack decimalWorld := by
  refine ⟨readDecimal_writeDecimal, ?_, fun _ => rfl⟩
  intro o
  refine ⟨rfl, rfl, ?_⟩
  intro grand hgrand
  have hg : grand = DataNode.mk ["name", o.name] [] := by
    simpa [decimalOutput, DataNode.children] using hgrand
  rw [hg]
  show "name" ≠ "actions"
  decide

/-- C20: a missing progress entry is observationally an entry with mask 0. For every
record and every actor `a` without an entry, the record with the entry 0 for `a`
gives the same `HasFailed()` and the same `HasSucceeded()`, whatever `succeedIf` and
`failIf` are; `Save` writes the same node for both, with no "actions" line for `a`;
and the record with the entry 0, read back from what `Save` wrote, gives the
answers it gave before, provided its progress map is well formed and the writer
fits the loaders. -/
theorem C20_missing_entry_is_mask_zero (out : Output) (r : NPC) (a : Nat)
    (h : StdMap.find r.actions a = none) :
    ({ r with actions := StdMap.set r.actions a 0 } : NPC).HasFailed = r.HasFailed ∧
      ({ r with actions := StdMap.set r.actions a 0 } : NPC).HasSucceeded = r.HasSucceeded ∧
      ({ r with actions := StdMap.set r.actions a 0 } : NPC).Save out = r.Save out ∧
      ∀ (w : World) (heap : Nat), out.ReadsBack w →
        ({ r with actions := StdMap.set r.actions a 0 } : NPC).WellFormed →
        (NPC.Load w {} (({ r with actions := StdMap.set r.actions a 0 } : NPC).Save out)
            heap).HasFailed
          = ({ r with actions := StdMap.set r.actions a 0 } : NPC).HasFailed ∧
        (NPC.Load w {} (({ r with actions := StdMap.set r.actions a 0 } : NPC).Save out)
            heap).HasSucceeded
          = ({ r with actions := StdMap.set r.actions a 0 } : NPC).HasSucceeded :=
  ⟨NPC.HasFailed_set_zero r a h, NPC.HasSucceeded_set_zero r a h, NPC.Save_set_zero out r a h,
    fun w heap hout hwf => NPC.Load_Save_evaluator out w _ heap hout hwf⟩

/-- C20 at the sample record, whose first actor has no entry: with the entry 0 for
it the answers are the same, the node saved is the same, and the record read back
from that node answers the same. -/
theorem C20_missing_entry_is_mask_zero_witness :
    StdMap.find sampleRecord.actions 1 = none ∧
      ({ sampleRecord with actions := [(1, 0), (2, 16)] } : NPC).HasFailed
        = sampleRecord.HasFailed ∧
      ({ sampleRecord with actions := [(1, 0), (2, 16)] } : NPC).HasSucceeded
        = sampleRecord.HasSucceeded ∧
      ({ sampleRecord with actions := [(1, 0), (2, 16)] } : NPC).Save decimalOutput
        = sampleRecord.Save decimalOutput ∧
      (NPC.Load decimalWorld {}
          (({ sampleRecord with actions := [(1, 0), (2, 16)] } : NPC).Save decimalOutput)
          0).HasFailed
        = ({ sampleRecord with actions := [(1, 0), (2, 16)] } : NPC).HasFailed ∧
      (NPC.Load decimalWorld {}
          (({ sampleRecord with actions := [(1, 0), (2, 16)] } : NPC).Save decimalOutput)
          0).HasSucceeded
        = ({ sampleRecord with actions := [(1, 0), (2, 16)] } : NPC).HasSucceeded :=
  ⟨rfl, (C20_missing_entry_is_mask_zero decimalOutput sampleRecord 1 rfl).1,
    (C20_missing_entry_is_mask_zero decimalOutput sampleRecord 1 rfl).2.1,
    (C20_missing_entry_is_mask_zero decimalOutput sampleRecord 1 rfl).2.2.1,
    (C20_missing_entry_is_mask_zero decimalOutput sampleRecord 1 rfl).2.2.2 decimalWorld 0
      decimalOutput_ReadsBack (by unfold NPC.WellFormed StdMap.Valid; decide)⟩

end NPCModel
